import Mathlib

/-!
# ngp2: scanning files for a pattern and browsing the result list

A shallow embedding of `src/search.c` (the file scanner) and `src/display.c`
(the pager over the result list), with the properties of the specification
stated over it.

Conventions of the embedding.

* A byte is a `Nat`; a `char *` argument is modelled by the bytes found at the
  pointer, and the C string it denotes is `cstr` of them (the bytes before the
  first NUL).  The mapping of a file is the one buffer whose end is modelled:
  `mmap` gives the bytes that are readable, and a read past them is an outcome
  of its own (`read_past_mapping`).
* `uint32_t` values are `Nat`, `int` and `int32_t` values are `Int`; every
  conversion the C code performs is written out with `u32` and `i32`.
* Loops of C carry a fuel argument; the theorems show that the fuel handed in
  by the top-level functions is enough.
* `entries.c` is not among the sources: the store is a list of entries and its
  accessors are modelled from the specification.
-/

namespace Ngp2

/-! ## Machine integers -/

/-- Conversion to `uint32_t`: reduction modulo 2^32. -/
def u32 (x : Int) : Nat := (x % 4294967296).toNat

/-- Conversion to `int32_t` (and to `int`): two's complement wrap-around. -/
def i32 (x : Int) : Int := (x + 2147483648) % 4294967296 - 2147483648

/-! ## C strings and the libc functions the sources call -/

/-- The C string found at a pointer: the bytes before the first NUL. -/
def cstr (mem : List Nat) : List Nat := mem.takeWhile (fun b => b != 0)

/-- What `strchr` returns: the offset of the byte found, NULL, or no return
value at all, the scan having left the readable bytes. -/
inductive strchr_result where
  | found (k : Nat)
  | null
  | past_end
deriving DecidableEq

/-- The libc call `strchr(s, c)` for a non-zero `c`, on the bytes that are
readable from `s` on: the offset of the first byte equal to `c`, NULL when a NUL
comes first, and a read past the readable bytes when neither is met. -/
def strchr : List Nat → Nat → strchr_result
  | [], _ => strchr_result.past_end
  | b :: s, c =>
    if b = c then strchr_result.found 0
    else if b = 0 then strchr_result.null
    else
      match strchr s c with
      | strchr_result.found k => strchr_result.found (k + 1)
      | strchr_result.null => strchr_result.null
      | strchr_result.past_end => strchr_result.past_end

/-- Whether `needle` is read at the very start of `hay`. -/
def starts_with : List Nat → List Nat → Bool
  | _, [] => true
  | [], _ :: _ => false
  | h :: hs, n :: ns => h == n && starts_with hs ns

/-- The libc call `strstr(hay, needle)` on two C strings: the offset of the
first occurrence of `needle` in `hay`, `none` (NULL) when there is none. -/
def strstr : List Nat → List Nat → Option Nat
  | [], needle => if starts_with [] needle then some 0 else none
  | h :: hs, needle =>
    if starts_with (h :: hs) needle then some 0
    else (strstr hs needle).map (fun k => k + 1)

/-- The libc call `tolower` in the C locale. -/
def tolower (b : Nat) : Nat := if 65 ≤ b ∧ b ≤ 90 then b + 32 else b

/-- The libc call `strcasestr(hay, needle)`: `strstr` up to the case of ASCII
letters. -/
def strcasestr (hay needle : List Nat) : Option Nat :=
  strstr (hay.map tolower) (needle.map tolower)

/-! ## The result store (`entries.h`) -/

/-- One entry of the result store (`struct entry`, as `display.c` reads it):
`line` is 0 for a file header and the line number for a match line. -/
structure entry where
  line : Nat
  data : List Nat
  visited : Bool
deriving DecidableEq

/-- Modelled from the spec: `entries_add` of the absent `entries.c`, the
`append(entry)` of the append-only store; the new entry goes last and is not
visited. -/
def entries_add (this : List entry) (line : Nat) (data : List Nat) : List entry :=
  this ++ [⟨line, data, false⟩]

/-- Modelled from the spec: `entries_get_nb_entries` of the absent `entries.c`,
the `length()` of the store.  `display.c` holds it in a `uint32_t`; the theorems
on the pager take a store of fewer than 2^32 entries. -/
def entries_get_nb_entries (this : List entry) : Nat := this.length

/-- Modelled from the spec: `entries_get_data` of the absent `entries.c`, the
`get(index)` of the store; `none` (NULL) for an index at or past the length. -/
def entries_get_data (this : List entry) (index : Nat) : Option (List Nat) :=
  (this.get? index).map (fun e => e.data)

/-- Modelled from the spec: `entries_is_file` of the absent `entries.c`, the
`is_file_header(index)` of the store: the entry exists and its line is 0. -/
def entries_is_file (this : List entry) (index : Nat) : Bool :=
  match this.get? index with
  | some e => e.line == 0
  | none => false

/-! ## `search.c` -/

/-- The fields of `struct search` that `parse_file_contents` reads. -/
structure search where
  case_insensitive : Bool
  pattern : List Nat
  parser : List Nat → List Nat → Int → Option Nat
  entries : List entry

/-- The function `normal_search`: `strstr`, the size is ignored. -/
def normal_search (line pattern : List Nat) (_size : Int) : Option Nat :=
  strstr line pattern

/-- The function `insensitive_search`: `strcasestr`, the size is ignored. -/
def insensitive_search (line pattern : List Nat) (_size : Int) : Option Nat :=
  strcasestr line pattern

/-- The constructor `search_new`, for the fields kept here. -/
def search_new (pattern : List Nat) (entries : List entry) (insensitive_search_cfg : Bool) :
    search :=
  { case_insensitive := insensitive_search_cfg
    pattern := pattern
    parser := if insensitive_search_cfg then insensitive_search else normal_search
    entries := entries }

/-- How a run over the mapped file ends: with a value, with a read past the
mapping (undefined in C: a fault, or the bytes of whatever is mapped next), or
with the fuel of the model used up. -/
inductive outcome (α : Type) where
  | done (a : α)
  | read_past_mapping
  | out_of_fuel
deriving DecidableEq

/-- The value of a run changed by `f`. -/
def outcome.map {α β : Type} (f : α → β) : outcome α → outcome β
  | outcome.done a => outcome.done (f a)
  | outcome.read_past_mapping => outcome.read_past_mapping
  | outcome.out_of_fuel => outcome.out_of_fuel

/-- The bytes readable at the address `mmap(0, sb.st_size, ...)` returns in
`lookup_file`: the `st_size` bytes of the file, then zeros up to the end of the
last page.  There is no byte after the file when its size is a multiple of the
page size.  `page_size` is the page size of the system. -/
def mmap (page_size : Nat) (content : List Nat) : List Nat :=
  content ++ List.replicate ((page_size - content.length % page_size) % page_size) 0

/-- The C string at offset `p` of the mapping; `none` when no NUL follows inside
the mapping, so that reading the string runs past it. -/
def string_at (mem : List Nat) (p : Nat) : Option (List Nat) :=
  if 0 ∈ mem.drop p then some (cstr (mem.drop p)) else none

/-- The state of the `while` loop of `parse_file_contents`: the mapped bytes
(the loop overwrites line feeds with NUL), the offset `p`, `first`,
`line_number` and the store. -/
structure parse_state where
  mem : List Nat
  p : Nat
  first : Bool
  line_number : Nat
  entries : List entry

/-- The body shared by the loop and by the trailing-line case of
`parse_file_contents`: test the C string at `p` and add it, after the file
header when it is the first match of the file. -/
def parse_line (this : search) (file : List Nat) (s : parse_state) (size : Int) :
    outcome parse_state :=
  match string_at s.mem s.p with
  | none => outcome.read_past_mapping
  | some line =>
    if (this.parser line (cstr this.pattern) size).isSome then
      let es := if s.first then entries_add s.entries 0 (cstr file) else s.entries
      outcome.done { s with first := false, entries := entries_add es s.line_number line }
    else outcome.done s

/-- The `while ((endline = strchr(p, '\n')))` loop of `parse_file_contents`. -/
def parse_loop (this : search) (file : List Nat) : Nat → parse_state → outcome parse_state
  | 0, _ => outcome.out_of_fuel
  | fuel + 1, s =>
    match strchr (s.mem.drop s.p) 10 with
    | strchr_result.past_end => outcome.read_past_mapping
    | strchr_result.null => outcome.done s
    | strchr_result.found k =>
      let endline := s.p + k
      match parse_line this file { s with mem := s.mem.set endline 0 } k with
      | outcome.done s1 =>
        parse_loop this file fuel
          { s1 with p := endline + 1, line_number := u32 (s1.line_number + 1) }
      | outcome.read_past_mapping => outcome.read_past_mapping
      | outcome.out_of_fuel => outcome.out_of_fuel

/-- The function `parse_file_contents(this, file, p, p_len)`, `mem` being the
bytes readable at `p` and `orig_p` offset 0 of `mem`; it returns the store of
`this` after the call. -/
def parse_file_contents (this : search) (file : List Nat) (mem : List Nat) (p_len : Nat) :
    outcome (List entry) :=
  match parse_loop this file (mem.length + 1) ⟨mem, 0, true, 1, this.entries⟩ with
  | outcome.done s =>
    if s.p < 0 + p_len then
      (parse_line this file s (-(s.p : Int))).map (fun s1 => s1.entries)
    else outcome.done s.entries
  | outcome.read_past_mapping => outcome.read_past_mapping
  | outcome.out_of_fuel => outcome.out_of_fuel

/-! ## `display.c`

`LINES` and `COLS` are the `int` globals of ncurses; they are parameters here.
An unsigned expression of C is wrapped once with `u32`, which is the same as
wrapping after each of its operations. -/

/-- The fields of `struct display`.  The parent link is left to the list that
holds a stack of displays. -/
structure display where
  index : Nat
  cursor : Int
  patterns : List Nat
  display_vertical_size : Int
deriving DecidableEq

/-- The percentage `percent_completed` that `display_bar` computes and prints. -/
def display_bar (this : display) (entries : List entry) : Int :=
  let nb_entries := entries_get_nb_entries entries
  if nb_entries ≠ 0 then
    i32 ((u32 (100 * (this.index + this.cursor + 1)) / nb_entries : Nat))
  else 0

/-- The function `page_down`. -/
def page_down (LINES : Int) (this : display) (entries : List entry) : display :=
  let nb_entries := entries_get_nb_entries entries
  if u32 (this.index + (LINES - 1)) ≥ nb_entries then
    { this with cursor := i32 (u32 (nb_entries - this.index - 1)) }
  else
    let this := { this with index := u32 (this.index + (LINES - 1)), cursor := 0 }
    if entries_is_file entries (u32 (this.index + this.cursor)) then
      { this with cursor := i32 (this.cursor + 1) }
    else this

/-- The function `page_up`. -/
def page_up (LINES : Int) (this : display) (entries : List entry) : display :=
  if this.index = 0 then { this with cursor := 1 }
  else
    let this := { this with cursor := i32 ((LINES - 1) - 1) }
    let this := { this with index := u32 (this.index - (LINES - 1)) }
    if entries_is_file entries (u32 (this.index + this.cursor)) then
      { this with cursor := i32 (this.cursor - 1) }
    else this

/-- The function `key_down`. -/
def key_down (LINES : Int) (this : display) (entries : List entry) : display :=
  if (entries_get_data entries (u32 (this.index + this.cursor + 1))).isNone then this
  else if this.cursor = (LINES - 1) - 1 then page_down LINES this entries
  else
    let this := { this with cursor := i32 (this.cursor + 1) }
    let this :=
      if entries_is_file entries (u32 (this.index + this.cursor)) then
        { this with cursor := i32 (this.cursor + 1) }
      else this
    if this.cursor > (LINES - 1) - 1 then page_down LINES this entries else this

/-- The function `key_up`. -/
def key_up (LINES : Int) (this : display) (entries : List entry) : display :=
  if this.cursor ≤ 0 then page_up LINES this entries
  else
    let this := { this with cursor := i32 (this.cursor - 1) }
    let this :=
      if entries_is_file entries (u32 (this.index + this.cursor)) then
        { this with cursor := i32 (this.cursor - 1) }
      else this
    if this.cursor < 0 then page_up LINES this entries else this

/-- The function `goto_home`. -/
def goto_home (this : display) : display :=
  { this with index := 0, cursor := 1 }

/-- The function `goto_end`. -/
def goto_end (LINES : Int) (this : display) (entries : List entry) : display :=
  let nb_entries := entries_get_nb_entries entries
  { this with
    index := u32 ((nb_entries / u32 (LINES - 1) : Nat) * (u32 (LINES - 1) : Int))
    cursor := i32 (u32 ((nb_entries % u32 (LINES - 1) : Nat) - 1)) }

/-- The `case KEY_RESIZE` of `display_loop`, `LINES` being the new height. -/
def key_resize (LINES : Int) (this : display) : display :=
  let current_position := u32 (this.index + this.cursor)
  let this := { this with display_vertical_size := LINES }
  let this :=
    { this with cursor := i32 ((current_position % u32 (this.display_vertical_size - 1) : Nat)) }
  { this with index := u32 (current_position - this.cursor) }

/-- The entry under the cursor, as `display.c` addresses it everywhere: the
`uint32_t` value of `this->index + this->cursor`. -/
def current_position (this : display) : Nat := u32 (this.index + this.cursor)

/-- The colour pairs of `enum colors`. -/
inductive colors where
  | normal
  | yellow
  | red
  | magenta
  | green
deriving DecidableEq

/-- One drawing call issued while a line is coloured: `addch` of one byte or
`printw` of the pattern, with the offset in the line of the place it draws at
and the colour pair in force. -/
structure draw where
  offset : Nat
  text : List Nat
  pair : colors
deriving DecidableEq

/-- The `while ((pattern_position = search_function(ptr, pattern)))` loop of
`colorize_normal_patterns` on the C strings `line` and `pattern`, `ptr` being an
offset in the line; `none` when the fuel runs out. -/
def colorize_loop (search_function : List Nat → List Nat → Option Nat) (COLS : Int)
    (line pattern : List Nat) (visited : Bool) :
    Nat → Nat → colors → List draw → Option (List draw)
  | 0, _, _, _ => none
  | fuel + 1, ptr, pair, out =>
    match search_function (line.drop ptr) pattern with
    | none => some out
    | some k =>
      let pattern_position := ptr + k
      if (pattern_position : Int) > COLS then some out
      else
        let out := out ++ (List.range k).map
          (fun i => (⟨ptr + i, [line.getD (ptr + i) 0], pair⟩ : draw))
        let out := out ++ [⟨pattern_position, pattern, colors.red⟩]
        let pair := if visited then colors.magenta else colors.normal
        colorize_loop search_function COLS line pattern visited fuel
          (pattern_position + pattern.length) pair out

/-- The function `colorize_normal_patterns(line_contents, visited)`: the drawing
calls it issues.  `sensitive` is the value of `search_get_sensitive` and
`pattern` the string of `search_get_pattern`, both of the absent part of
`search.c`; the pair in force at the call is the one `print_line_contents` has
set. -/
def colorize_normal_patterns (sensitive : Bool) (COLS : Int) (line_contents pattern : List Nat)
    (visited : Bool) : Option (List draw) :=
  let search_function := if sensitive then strcasestr else strstr
  colorize_loop search_function COLS (cstr line_contents) (cstr pattern) visited
    ((cstr line_contents).length + 1) 0 (if visited then colors.magenta else colors.normal) []

/-- The spans of the line drawn in the match-highlight pair (red), as pairs of
a start offset and an end offset, in drawing order. -/
def highlighted (out : List draw) : List (Nat × Nat) :=
  (out.filter (fun d => d.pair = colors.red)).map
    (fun d => (d.offset, d.offset + d.text.length))

/-- The pattern occurs in the line at offset `i`. -/
def occurs_at (line pattern : List Nat) (i : Nat) : Prop := pattern <+: line.drop i

instance (line pattern : List Nat) (i : Nat) : Decidable (occurs_at line pattern i) := by
  unfold occurs_at
  infer_instance

/-- The spans are the leftmost non-overlapping occurrences of the pattern in
the line, scanning from offset `start`: each span begins at the first
occurrence at or after the end of the span before it (at or after `start` for
the first), ends where that occurrence ends, and no occurrence begins at or
after the end of the last span. -/
def leftmost_spans (line pattern : List Nat) : Nat → List (Nat × Nat) → Prop
  | start, [] => ∀ i, i < line.length + 1 → start ≤ i → ¬ occurs_at line pattern i
  | start, (s, e) :: rest =>
    start ≤ s ∧ occurs_at line pattern s ∧
      (∀ i, i < s → start ≤ i → ¬ occurs_at line pattern i) ∧
      e = s + pattern.length ∧ leftmost_spans line pattern e rest

/-- What `subsearch_window` leaves behind: the last key `car` read by `wgetch`,
the count `j` of characters in the buffer when the loop ended, the indices of
`search` that were written, in order, and the returned pattern (`none` for
NULL). -/
structure prompt_result where
  car : Int
  j : Nat
  writes : List Nat
  pattern : Option (List Nat)
deriving DecidableEq

/-- The loop `while ((car = wgetch(searchw)) != '\n' && j < 4096)` of
`subsearch_window` and the code after it, over the keys that `wgetch` returns.
`search` is the buffer of 4096 bytes, a write past its end leaves it as it is
and shows in `writes` only.  `j` is an `int` that the code never makes negative.
The result is `none` when the keys run out while the prompt is still open
(`wgetch` blocks). -/
def subsearch_loop : List Int → Nat → List Nat → List Nat → Option prompt_result
  | [], _, _, _ => none
  | car :: keys, j, search, writes =>
    if car ≠ 10 ∧ j < 4096 then
      if car = 8 ∨ car = 127 then
        if j > 0 then subsearch_loop keys (j - 1) (search.set (j - 1) 0) (writes ++ [j - 1])
        else subsearch_loop keys j search writes
      else if car = 27 then some ⟨car, j, writes, none⟩
      else subsearch_loop keys (j + 1) (search.set j (car % 256).toNat) (writes ++ [j])
    else
      let search := search.set j 0
      let writes := writes ++ [j]
      if j ≤ 0 then some ⟨car, j, writes, none⟩
      else some ⟨car, j, writes, some (cstr search)⟩

/-- The function `subsearch_window(invert)`; `invert` only selects the text of
the prompt. -/
def subsearch_window (_invert : Bool) (keys : List Int) : Option prompt_result :=
  subsearch_loop keys 0 (List.replicate 4096 0) []

/-- One line move of the pager: the down key or the up key. -/
inductive line_move where
  | down
  | up
deriving DecidableEq

/-- The effect of a line move: `key_down` or `key_up`. -/
def line_step (LINES : Int) (entries : List entry) (this : display) : line_move → display
  | line_move.down => key_down LINES this entries
  | line_move.up => key_up LINES this entries

/-- The effect of a sequence of line moves, first move first. -/
def line_moves (LINES : Int) (entries : List entry) (this : display)
    (moves : List line_move) : display :=
  moves.foldl (line_step LINES entries) this

/-- Every file header of the store is immediately followed by a match line. -/
def headers_followed (entries : List entry) : Prop :=
  ∀ i, i < entries.length → entries_is_file entries i = true →
    i + 1 < entries.length ∧ entries_is_file entries (i + 1) = false

instance (entries : List entry) : Decidable (headers_followed entries) := by
  unfold headers_followed
  infer_instance

/-- The view state has its cursor on an existing match line: `index` is a
multiple of `LINES - 1`, the cursor is a row of the viewport, and
`index + cursor` is the index of an entry that is not a file header. -/
def on_match_line (LINES : Int) (entries : List entry) (d : display) : Prop :=
  (d.index : Int) % (LINES - 1) = 0 ∧ 0 ≤ d.cursor ∧ d.cursor ≤ LINES - 2 ∧
    (d.index : Int) + d.cursor < entries.length ∧
    entries_is_file entries ((d.index : Int) + d.cursor).toNat = false

instance (LINES : Int) (entries : List entry) (d : display) :
    Decidable (on_match_line LINES entries d) := by
  unfold on_match_line
  infer_instance

/-- The cursor is a row of the viewport that shows an existing entry:
`0 ≤ cursor ≤ LINES - 2` and `index + cursor` is below the number of entries. -/
def cursor_in_view (LINES : Int) (entries : List entry) (d : display) : Prop :=
  0 ≤ d.cursor ∧ d.cursor ≤ LINES - 2 ∧ (d.index : Int) + d.cursor < entries.length

instance (LINES : Int) (entries : List entry) (d : display) :
    Decidable (cursor_in_view LINES entries d) := by
  unfold cursor_in_view
  infer_instance

/-- The navigation operations of `display_loop`; a resize carries the new value
of `LINES`. -/
inductive nav_op where
  | key_down
  | key_up
  | page_down
  | page_up
  | goto_home
  | goto_end
  | resize (LINES : Int)
deriving DecidableEq

/-- The effect of a navigation operation on the view state. -/
def nav_step (LINES : Int) (entries : List entry) (this : display) : nav_op → display
  | nav_op.key_down => key_down LINES this entries
  | nav_op.key_up => key_up LINES this entries
  | nav_op.page_down => page_down LINES this entries
  | nav_op.page_up => page_up LINES this entries
  | nav_op.goto_home => goto_home this
  | nav_op.goto_end => goto_end LINES this entries
  | nav_op.resize new_lines => key_resize new_lines this

/-- The value of `LINES` after a navigation operation. -/
def nav_lines (LINES : Int) : nav_op → Int
  | nav_op.resize new_lines => new_lines
  | _ => LINES

/-- The operations the claim on the cursor staying in view is proved for: all
but `goto_end` on a store whose length is a multiple of `LINES - 1`; the new
height of a resize is an `int` above 1. -/
def nav_allowed (LINES : Int) (entries : List entry) : nav_op → Prop
  | nav_op.goto_end => entries.length % (LINES - 1).toNat ≠ 0
  | nav_op.resize new_lines => 1 < new_lines ∧ new_lines < 2147483648
  | _ => True

instance (LINES : Int) (entries : List entry) (op : nav_op) :
    Decidable (nav_allowed LINES entries op) := by
  cases op <;> unfold nav_allowed <;> infer_instance

/-- A sample store: the file `x` with a match on line 1 and the file `y` with a
match on line 7. -/
def two_files : List entry :=
  [⟨0, [120], false⟩, ⟨1, [97], false⟩, ⟨0, [121], false⟩, ⟨7, [97], false⟩]

/-- The constructor `display_new(parent_display, pattern)`: a zeroed display
(`calloc`) with the status-bar label and the current `LINES`.  `invert` is the
value of `search_get_invert(current_search)`, of the absent part of `search.c`;
the parent link is the tail of the display stack. -/
def display_new (LINES : Int) (parent_display : Option display) (invert : Bool)
    (pattern : List Nat) : display :=
  { index := 0
    cursor := 0
    patterns :=
      match parent_display with
      | some parent =>
        cstr parent.patterns ++ [32] ++ [if invert then 92 else 47] ++ cstr pattern
      | none => cstr pattern
    display_vertical_size := LINES }

/-- The keys `display_loop` reacts to by moving a view: page and line moves,
home and end, a resize notification (ncurses has set `LINES` to the new height
when `getch` returns it), the two refine keys `/` and `\` with the keys typed
into the prompt and the store of the new subsearch (`subsearch.c` is absent),
and the quit key.  Enter and space touch neither a display nor `LINES` and are
left out. -/
inductive loop_key where
  | KEY_NPAGE
  | KEY_PPAGE
  | KEY_DOWN
  | KEY_UP
  | KEY_RESIZE (LINES : Int)
  | KEY_HOME
  | KEY_END
  | refine (invert : Bool) (typed : List Int) (sub_entries : List entry)
  | QUIT

/-- The state of `display_loop`: the global `LINES`, the flag `run`, the value
`main_status` of `search_get_status(main_search)`, and the stack of searches
with their displays, the active one first (`this` with `entries`, then
`this->parent_display` with the store of the parent search, and so on). -/
structure loop_state where
  LINES : Int
  run : Bool
  main_status : Bool
  stack : List (display × List entry)
deriving DecidableEq

/-- One turn of the `switch` of `display_loop` on the active display. -/
def display_loop_key (s : loop_state) (ch : loop_key) : loop_state :=
  match s.stack with
  | [] => s
  | (this, entries) :: parents =>
    match ch with
    | loop_key.KEY_NPAGE =>
      { s with stack := (page_down s.LINES this entries, entries) :: parents }
    | loop_key.KEY_PPAGE =>
      { s with stack := (page_up s.LINES this entries, entries) :: parents }
    | loop_key.KEY_DOWN =>
      { s with stack := (key_down s.LINES this entries, entries) :: parents }
    | loop_key.KEY_UP =>
      { s with stack := (key_up s.LINES this entries, entries) :: parents }
    | loop_key.KEY_RESIZE new_lines =>
      { s with LINES := new_lines, stack := (key_resize new_lines this, entries) :: parents }
    | loop_key.KEY_HOME =>
      { s with stack := (goto_home this, entries) :: parents }
    | loop_key.KEY_END =>
      { s with stack := (goto_end s.LINES this entries, entries) :: parents }
    | loop_key.refine invert typed sub_entries =>
      match subsearch_window invert typed with
      | none => s
      | some r =>
        match r.pattern with
        | none => s
        | some sub_pattern =>
          { s with
            stack := (display_new s.LINES (some this) invert sub_pattern, sub_entries)
              :: (this, entries) :: parents }
    | loop_key.QUIT =>
      match parents with
      | [] => { s with run := false }
      | parent :: rest => { s with stack := parent :: rest }

/-- The check that ends a turn of `display_loop`: the loop stops when the main
search has ended without results and no subsearch is active. -/
def display_loop_check (s : loop_state) : loop_state :=
  match s.stack with
  | [(_, entries)] =>
    if !s.main_status && entries.length == 0 then { s with run := false } else s
  | _ => s

/-- The loop `while ((ch = getch()) && run)` of `display_loop` over the keys
read, first key first. -/
def display_loop (s : loop_state) : List loop_key → loop_state
  | [] => s
  | ch :: keys =>
    if s.run then display_loop (display_loop_check (display_loop_key s ch)) keys else s

/-- The active view is aligned: its `index` is a multiple of `LINES - 1` for the
current `LINES`. -/
def index_aligned (s : loop_state) : Prop :=
  match s.stack with
  | [] => True
  | (this, _) :: _ => (this.index : Int) % (s.LINES - 1) = 0

instance (s : loop_state) : Decidable (index_aligned s) := by
  unfold index_aligned
  split <;> infer_instance

/-- A sample store of one file with three match lines. -/
def one_file : List entry :=
  [⟨0, [120], false⟩, ⟨1, [97], false⟩, ⟨2, [97], false⟩, ⟨3, [97], false⟩]

/-- The state in which `display_loop` starts on the sample store: three rows,
the main search still running, the root display fresh from `display_new`. -/
def loop_start : loop_state :=
  ⟨3, true, true, [(display_new 3 none false [97], one_file)]⟩

/-! ## What the specification says a scan of one file emits -/

/-- The lines of a file content, split on line feed: the parts between line
feeds, and the part after the last line feed when it is not empty (a final
line without a terminating line feed). -/
def file_lines (content : List Nat) : List (List Nat) :=
  let parts := content.splitOn 10
  if parts.getLast? = some [] then parts.dropLast else parts

/-- A line contains the pattern: as a contiguous run of bytes, up to the case
of ASCII letters when the search is case-insensitive. -/
def contains_pattern (insensitive : Bool) (pattern line : List Nat) : Bool :=
  if insensitive then decide (pattern.map tolower <:+: line.map tolower)
  else decide (pattern <:+: line)

/-- The numbered lines (numbering from 1) that pass the test `found`. -/
def matching_lines (found : List Nat → Bool) (content : List Nat) : List (Nat × List Nat) :=
  ((file_lines content).enumFrom 1).filter (fun x => found x.2)

/-- The entries a file is to contribute: nothing when no line passes the test,
else the file header followed by one match line per passing line, in file
order, with its line number and its text. -/
def expected_entries (found : List Nat → Bool) (file content : List Nat) : List entry :=
  match matching_lines found content with
  | [] => []
  | hits => ⟨0, file, false⟩ :: hits.map (fun x => ⟨x.1, x.2, false⟩)

/-- The match lines the loop adds from line number `n` on, the counter being a
`uint32_t`. -/
def counted_lines (found : List Nat → Bool) : Nat → List (List Nat) → List entry
  | _, [] => []
  | n, l :: ls =>
    if found l then ⟨n, l, false⟩ :: counted_lines found (u32 (n + 1)) ls
    else counted_lines found (u32 (n + 1)) ls

/-- The entries the loop adds from a state on: the header before the first
match line when `first` is still set. -/
def emitted (found : List Nat → Bool) (file : List Nat) (first : Bool) (n : Nat)
    (ls : List (List Nat)) : List entry :=
  match counted_lines found n ls with
  | [] => []
  | hits => if first then ⟨0, file, false⟩ :: hits else hits

/-- The entries a scan of the file `file` with the lines `lines` appends are
well formed: there is none, or there is one header of that file (line number 0)
in first position followed by one or more match lines with strictly increasing
line numbers from 1 on, each the line of the file with that number: its text is
that line up to its first NUL, and passes the test `found`. -/
def file_block (found : List Nat → Bool) (file : List Nat) (lines : List (List Nat)) :
    List entry → Prop
  | [] => True
  | h :: rest => h.line = 0 ∧ h.data = file ∧ rest ≠ [] ∧
      (∀ e ∈ rest, 1 ≤ e.line ∧ found e.data = true ∧
        (lines[e.line - 1]?).map cstr = some e.data) ∧
      rest.Pairwise (fun a b => a.line < b.line)

instance (found : List Nat → Bool) (file : List Nat) (lines : List (List Nat))
    (added : List entry) : Decidable (file_block found file lines added) := by
  cases added <;> unfold file_block <;> infer_instance

/-- What holds of the entries added so far when the scan is at line `n`:
nothing is added while `first` is set; afterwards they are a header followed by
match lines as in `file_block`, all with a line number below `n`. -/
def scan_inv (found : List Nat → Bool) (file : List Nat) (lines : List (List Nat))
    (first : Bool) (n : Nat) (added : List entry) : Prop :=
  (first = true ∧ added = []) ∨
  (first = false ∧ ∃ h rest, added = h :: rest ∧ h.line = 0 ∧ h.data = file ∧ rest ≠ [] ∧
    (∀ e ∈ rest, 1 ≤ e.line ∧ e.line < n ∧ found e.data = true ∧
      (lines[e.line - 1]?).map cstr = some e.data) ∧
    rest.Pairwise (fun a b => a.line < b.line))

/-! ## Lemmas on the string functions -/

theorem starts_with_iff (hay needle : List Nat) :
    starts_with hay needle = true ↔ needle <+: hay := by
  induction needle generalizing hay with
  | nil => simp [starts_with]
  | cons n ns ih =>
    cases hay with
    | nil => simp [starts_with]
    | cons h hs =>
      simp only [starts_with, Bool.and_eq_true, beq_iff_eq, ih, List.cons_prefix_cons]
      constructor
      · rintro ⟨rfl, h2⟩; exact ⟨rfl, h2⟩
      · rintro ⟨rfl, h2⟩; exact ⟨rfl, h2⟩

theorem strstr_isSome_iff (hay needle : List Nat) :
    (strstr hay needle).isSome = true ↔ needle <:+: hay := by
  induction hay with
  | nil =>
    cases needle with
    | nil => simp [strstr, starts_with]
    | cons n ns => simp [strstr, starts_with]
  | cons h hs ih =>
    have hc : strstr (h :: hs) needle
        = if starts_with (h :: hs) needle then some 0
          else (strstr hs needle).map (fun k => k + 1) := by
      rw [strstr]
    rw [List.infix_cons_iff, ← ih, ← starts_with_iff, hc]
    by_cases hp : starts_with (h :: hs) needle = true
    · simp [hp]
    · simp [hp]

theorem normal_search_found (pattern line : List Nat) (z : Int) :
    (normal_search line pattern z).isSome = contains_pattern false pattern line := by
  have h := strstr_isSome_iff line pattern
  unfold normal_search contains_pattern
  by_cases hi : pattern <:+: line
  · simp [hi, h.mpr hi]
  · have : ¬ (strstr line pattern).isSome = true := fun hc => hi (h.mp hc)
    simp [hi, this]

theorem insensitive_search_found (pattern line : List Nat) (z : Int) :
    (insensitive_search line pattern z).isSome = contains_pattern true pattern line := by
  have h := strstr_isSome_iff (line.map tolower) (pattern.map tolower)
  unfold insensitive_search strcasestr contains_pattern
  by_cases hi : pattern.map tolower <:+: line.map tolower
  · simp [hi, h.mpr hi]
  · have : ¬ (strstr (line.map tolower) (pattern.map tolower)).isSome = true :=
      fun hc => hi (h.mp hc)
    simp [hi, this]

theorem search_new_found (pattern : List Nat) (es : List entry) (ci : Bool) (line : List Nat)
    (z : Int) :
    ((search_new pattern es ci).parser line (cstr (search_new pattern es ci).pattern) z).isSome
      = contains_pattern ci (cstr pattern) line := by
  cases ci
  · exact normal_search_found (cstr pattern) line z
  · exact insensitive_search_found (cstr pattern) line z

theorem strchr_cons (b : Nat) (s : List Nat) (c : Nat) :
    strchr (b :: s) c =
      if b = c then strchr_result.found 0
      else if b = 0 then strchr_result.null
      else
        match strchr s c with
        | strchr_result.found k => strchr_result.found (k + 1)
        | strchr_result.null => strchr_result.null
        | strchr_result.past_end => strchr_result.past_end := by
  rw [strchr]

theorem strchr_found_cons (b : Nat) (s : List Nat) (c k : Nat)
    (h : strchr (b :: s) c = strchr_result.found k) :
    (b = c ∧ k = 0) ∨
      (b ≠ c ∧ b ≠ 0 ∧ ∃ j, k = j + 1 ∧ strchr s c = strchr_result.found j) := by
  rw [strchr_cons] at h
  by_cases hb : b = c
  · rw [if_pos hb] at h
    injection h with h
    exact Or.inl ⟨hb, h.symm⟩
  · rw [if_neg hb] at h
    by_cases h0 : b = 0
    · rw [if_pos h0] at h
      exact strchr_result.noConfusion h
    · rw [if_neg h0] at h
      cases hs : strchr s c with
      | found j =>
        rw [hs] at h
        injection h with h
        exact Or.inr ⟨hb, h0, j, h.symm, rfl⟩
      | null =>
        rw [hs] at h
        exact strchr_result.noConfusion h
      | past_end =>
        rw [hs] at h
        exact strchr_result.noConfusion h

theorem strchr_null_cons (b : Nat) (s : List Nat) (c : Nat)
    (h : strchr (b :: s) c = strchr_result.null) :
    b ≠ c ∧ (b = 0 ∨ (b ≠ 0 ∧ strchr s c = strchr_result.null)) := by
  rw [strchr_cons] at h
  by_cases hb : b = c
  · rw [if_pos hb] at h
    exact strchr_result.noConfusion h
  · rw [if_neg hb] at h
    by_cases h0 : b = 0
    · exact ⟨hb, Or.inl h0⟩
    · rw [if_neg h0] at h
      cases hs : strchr s c with
      | found j =>
        rw [hs] at h
        exact strchr_result.noConfusion h
      | null => exact ⟨hb, Or.inr ⟨h0, rfl⟩⟩
      | past_end =>
        rw [hs] at h
        exact strchr_result.noConfusion h

theorem strchr_past_end_cons (b : Nat) (s : List Nat) (c : Nat)
    (h : strchr (b :: s) c = strchr_result.past_end) :
    b ≠ c ∧ b ≠ 0 ∧ strchr s c = strchr_result.past_end := by
  rw [strchr_cons] at h
  by_cases hb : b = c
  · rw [if_pos hb] at h
    exact strchr_result.noConfusion h
  · rw [if_neg hb] at h
    by_cases h0 : b = 0
    · rw [if_pos h0] at h
      exact strchr_result.noConfusion h
    · rw [if_neg h0] at h
      cases hs : strchr s c with
      | found j =>
        rw [hs] at h
        exact strchr_result.noConfusion h
      | null =>
        rw [hs] at h
        exact strchr_result.noConfusion h
      | past_end => exact ⟨hb, h0, rfl⟩

theorem strchr_lt (s : List Nat) (c k : Nat) (h : strchr s c = strchr_result.found k) :
    k < s.length := by
  induction s generalizing k with
  | nil => exact strchr_result.noConfusion h
  | cons b s ih =>
    rcases strchr_found_cons b s c k h with ⟨_, rfl⟩ | ⟨_, _, j, rfl, hj⟩
    · simp
    · have := ih j hj
      simp only [List.length_cons]
      omega

/-- A scan that starts before a NUL stays inside the readable bytes. -/
theorem strchr_of_mem_nul (s : List Nat) (c : Nat) (h : 0 ∈ s) :
    strchr s c ≠ strchr_result.past_end := by
  induction s with
  | nil => exact absurd h (List.not_mem_nil 0)
  | cons b s ih =>
    intro hp
    obtain ⟨_, h0, hs⟩ := strchr_past_end_cons b s c hp
    rcases List.mem_cons.mp h with hb | hin
    · exact h0 hb.symm
    · exact ih hin hs

/-- A scan of bytes without NUL does not return NULL. -/
theorem strchr_of_no_nul (s : List Nat) (c : Nat) (h : 0 ∉ s) :
    strchr s c ≠ strchr_result.null := by
  induction s with
  | nil => intro hn; exact strchr_result.noConfusion hn
  | cons b s ih =>
    intro hn
    obtain ⟨_, hcase⟩ := strchr_null_cons b s c hn
    rcases hcase with hb | ⟨_, hs⟩
    · exact h (by simp [hb])
    · exact ih (fun hin => h (List.mem_cons_of_mem b hin)) hs

theorem strchr_take_no_nul (s : List Nat) (c k : Nat)
    (h : strchr s c = strchr_result.found k) : 0 ∉ s.take k := by
  induction s generalizing k with
  | nil => exact strchr_result.noConfusion h
  | cons b s ih =>
    rcases strchr_found_cons b s c k h with ⟨_, rfl⟩ | ⟨_, h0, j, rfl, hj⟩
    · simp
    · rw [List.take_succ_cons]
      intro hin
      rcases List.mem_cons.mp hin with hb | hin
      · exact h0 hb.symm
      · exact ih j hj hin

theorem strchr_nul_after (s : List Nat) (k : Nat) (h : strchr s 10 = strchr_result.found k)
    (h0 : 0 ∈ s) : 0 ∈ s.drop (k + 1) := by
  induction s generalizing k with
  | nil => exact strchr_result.noConfusion h
  | cons b s ih =>
    rcases strchr_found_cons b s 10 k h with ⟨hb, rfl⟩ | ⟨_, hb0, j, rfl, hj⟩
    · rcases List.mem_cons.mp h0 with hz | hin
      · omega
      · simpa using hin
    · rcases List.mem_cons.mp h0 with hz | hin
      · exact absurd hz.symm hb0
      · simpa using ih j hj hin

/-- The zero fill after the content holds no line feed: a line feed found in the
mapping is one of the content. -/
theorem strchr_append_zeros (c z : List Nat) (k : Nat) (hz : ∀ x ∈ z, x = 0)
    (h : strchr (c ++ z) 10 = strchr_result.found k) :
    strchr c 10 = strchr_result.found k := by
  induction c generalizing k with
  | nil =>
    cases z with
    | nil => exact strchr_result.noConfusion h
    | cons b z =>
      have hb : b = 0 := hz b (List.mem_cons_self b z)
      rcases strchr_found_cons b z 10 k h with ⟨hb10, _⟩ | ⟨_, hb0, _⟩
      · omega
      · exact absurd hb hb0
  | cons b c ih =>
    rw [List.cons_append] at h
    rcases strchr_found_cons b (c ++ z) 10 k h with ⟨hb, rfl⟩ | ⟨hb, hb0, j, rfl, hj⟩
    · rw [strchr_cons, if_pos hb]
    · rw [strchr_cons, if_neg hb, if_neg hb0, ih j hj]

theorem cstr_of_no_nul (s : List Nat) (h : 0 ∉ s) : cstr s = s := by
  unfold cstr
  rw [List.takeWhile_eq_self_iff]
  intro x hx
  have : x ≠ 0 := fun hx0 => h (hx0 ▸ hx)
  simpa using this

theorem cstr_cons (b : Nat) (s : List Nat) :
    cstr (b :: s) = if b = 0 then [] else b :: cstr s := by
  unfold cstr
  by_cases hb : b = 0
  · simp [List.takeWhile_cons, hb]
  · simp [List.takeWhile_cons, hb]

theorem cstr_zeros (z : List Nat) (hz : ∀ x ∈ z, x = 0) : cstr z = [] := by
  cases z with
  | nil => rfl
  | cons b z => rw [cstr_cons, if_pos (hz b (List.mem_cons_self b z))]

/-- The C string at the start of a content without NUL that the zero fill
follows is the content. -/
theorem cstr_append_zeros (c z : List Nat) (hc : 0 ∉ c) (hz : ∀ x ∈ z, x = 0) :
    cstr (c ++ z) = c := by
  induction c with
  | nil => exact cstr_zeros z hz
  | cons b c ih =>
    have hb : b ≠ 0 := fun hb => hc (by simp [hb])
    rw [List.cons_append, cstr_cons, if_neg hb,
      ih (fun hin => hc (List.mem_cons_of_mem b hin))]

theorem cstr_set (s : List Nat) (k : Nat) (h : strchr s 10 = strchr_result.found k) :
    cstr (s.set k 0) = s.take k := by
  induction s generalizing k with
  | nil => exact strchr_result.noConfusion h
  | cons b s ih =>
    rcases strchr_found_cons b s 10 k h with ⟨_, rfl⟩ | ⟨_, hb0, j, rfl, hj⟩
    · rw [List.set_cons_zero, cstr_cons, if_pos rfl, List.take_zero]
    · rw [List.set_cons_succ, cstr_cons, if_neg hb0, ih j hj, List.take_succ_cons]

/-! ## Lemmas on the lines of a file -/

theorem file_lines_nil : file_lines [] = [] := by
  decide

theorem file_lines_cons (b : Nat) (rest : List Nat) :
    file_lines (b :: rest) =
      if b = 10 then [] :: file_lines rest
      else match file_lines rest with
        | [] => [[b]]
        | l :: ls => (b :: l) :: ls := by
  unfold file_lines List.splitOn
  rw [List.splitOnP_cons]
  have hne := List.splitOnP_ne_nil (fun x => x == 10) rest
  generalize List.splitOnP (fun x => x == 10) rest = P at hne
  by_cases hb : b = 10
  · subst hb
    cases P with
    | nil => exact absurd rfl hne
    | cons h t =>
      simp only [beq_self_eq_true, if_true, List.getLast?_cons_cons, List.dropLast_cons₂]
      by_cases hl : (h :: t).getLast? = some []
      · simp [hl]
      · simp [hl]
  · have hb' : (b == 10) = false := by simpa using hb
    cases P with
    | nil => exact absurd rfl hne
    | cons h t =>
      cases t with
      | nil =>
        cases h with
        | nil => simp [hb, hb']
        | cons x xs => simp [hb, hb']
      | cons h2 t2 =>
        simp only [hb, hb', if_false, List.modifyHead_cons, List.getLast?_cons_cons,
          List.dropLast_cons₂, Bool.false_eq_true]
        by_cases hl : (h2 :: t2).getLast? = some []
        · simp [hl]
        · simp [hl]

theorem file_lines_of_strchr_found (s : List Nat) (k : Nat)
    (h : strchr s 10 = strchr_result.found k) :
    file_lines s = s.take k :: file_lines (s.drop (k + 1)) := by
  induction s generalizing k with
  | nil => exact strchr_result.noConfusion h
  | cons b s ih =>
    rw [file_lines_cons]
    rcases strchr_found_cons b s 10 k h with ⟨hb, rfl⟩ | ⟨hb, _, j, rfl, hj⟩
    · simp [hb]
    · rw [ih j hj]
      simp [hb]

/-- A content without NUL in which the scan meets no line feed before the zero
fill is one line, or no line when it is empty. -/
theorem file_lines_of_strchr_null (c z : List Nat)
    (h : strchr (c ++ z) 10 = strchr_result.null) (h0 : 0 ∉ c) :
    file_lines c = if c = [] then [] else [c] := by
  induction c with
  | nil => simp [file_lines_nil]
  | cons b c ih =>
    rw [List.cons_append] at h
    rw [file_lines_cons]
    have hb0 : b ≠ 0 := fun hb => h0 (by simp [hb])
    have hc0 : 0 ∉ c := fun hc => h0 (by simp [hc])
    obtain ⟨hb, hcase⟩ := strchr_null_cons b (c ++ z) 10 h
    rcases hcase with hz | ⟨_, hs⟩
    · exact absurd hz hb0
    · rw [ih hs hc0]
      by_cases hc : c = []
      · simp [hb, hc]
      · simp [hb, hc]

theorem file_lines_ne_nil (s : List Nat) (h : s ≠ []) : file_lines s ≠ [] := by
  cases s with
  | nil => exact absurd rfl h
  | cons b rest =>
    rw [file_lines_cons]
    by_cases hb : b = 10
    · simp [hb]
    · rw [if_neg hb]
      cases file_lines rest <;> simp

/-- Where the scan meets a NUL before any line feed, the C string read there is
the first of the remaining lines of the file, cut at its first NUL. -/
theorem cstr_first_line (c z : List Nat) (hz : ∀ x ∈ z, x = 0)
    (h : strchr (c ++ z) 10 = strchr_result.null) (hc : c ≠ []) :
    ∃ l ls, file_lines c = l :: ls ∧ cstr (c ++ z) = cstr l := by
  induction c with
  | nil => exact absurd rfl hc
  | cons b c ih =>
    rw [List.cons_append] at h
    obtain ⟨hb, hcase⟩ := strchr_null_cons b (c ++ z) 10 h
    rw [file_lines_cons, if_neg hb, List.cons_append, cstr_cons]
    rcases hcase with hb0 | ⟨hb0, hs⟩
    · rw [if_pos hb0]
      cases file_lines c with
      | nil => exact ⟨[b], [], rfl, by rw [cstr_cons, if_pos hb0]⟩
      | cons l ls => exact ⟨b :: l, ls, rfl, by rw [cstr_cons, if_pos hb0]⟩
    · rw [if_neg hb0]
      by_cases hcn : c = []
      · subst hcn
        rw [file_lines_nil, List.nil_append, cstr_zeros z hz]
        exact ⟨[b], [], rfl, by rw [cstr_cons, if_neg hb0]; rfl⟩
      · obtain ⟨l, ls, hl, hcs⟩ := ih hs hcn
        rw [hl, hcs]
        exact ⟨b :: l, ls, rfl, by rw [cstr_cons, if_neg hb0]⟩

/-! ## The loop of `parse_file_contents` -/

theorem emitted_nil (found : List Nat → Bool) (file : List Nat) (first : Bool) (n : Nat) :
    emitted found file first n [] = [] := by
  simp [emitted, counted_lines]

theorem emitted_cons (found : List Nat → Bool) (file : List Nat) (first : Bool) (n : Nat)
    (l : List Nat) (ls : List (List Nat)) :
    emitted found file first n (l :: ls) =
      if found l then
        (if first then [⟨0, file, false⟩] else []) ++
          (⟨n, l, false⟩ :: emitted found file false (u32 (n + 1)) ls)
      else emitted found file first (u32 (n + 1)) ls := by
  by_cases hf : found l = true
  · cases first <;> simp [emitted, counted_lines, hf] <;>
      cases counted_lines found (u32 (n + 1)) ls <;> simp
  · simp [emitted, counted_lines, hf]

/-- The bytes `mmap` makes readable are the content followed by zeros, one or
more when the size of the content is not a multiple of the page size. -/
theorem mmap_zeros (page_size : Nat) (content : List Nat) :
    ∃ z, mmap page_size content = content ++ z ∧ (∀ x ∈ z, x = 0) ∧
      (0 < page_size → content.length % page_size ≠ 0 → 0 ∈ z) := by
  refine ⟨List.replicate ((page_size - content.length % page_size) % page_size) 0, rfl,
    fun x hx => List.eq_of_mem_replicate hx, ?_⟩
  intro hpos hrem
  have hlt : content.length % page_size < page_size := Nat.mod_lt _ hpos
  generalize content.length % page_size = r at hrem hlt
  rw [Nat.mod_eq_of_lt (by omega), List.mem_replicate]
  exact ⟨by omega, rfl⟩

theorem parse_line_entries (this : search) (file : List Nat) (found : List Nat → Bool)
    (hfound : ∀ l z, (this.parser l (cstr this.pattern) z).isSome = found l)
    (s : parse_state) (z : Int) (hnul : 0 ∈ s.mem.drop s.p) :
    parse_line this file s z = outcome.done
      (if found (cstr (s.mem.drop s.p)) then
        { s with
          first := false
          entries := s.entries ++ ((if s.first then [⟨0, cstr file, false⟩] else []) ++
            [⟨s.line_number, cstr (s.mem.drop s.p), false⟩]) }
      else s) := by
  unfold parse_line string_at
  rw [if_pos hnul]
  dsimp only
  rw [hfound]
  by_cases hf : found (cstr (s.mem.drop s.p)) = true
  · cases hfirst : s.first <;> simp [hf, entries_add]
  · simp [hf]

/-- One turn of the loop of `parse_file_contents` at a line feed found `k` bytes
on: the line is the `k` bytes before it, and the scan goes on after it. -/
theorem parse_loop_step (this : search) (file : List Nat) (found : List Nat → Bool)
    (hfound : ∀ l z, (this.parser l (cstr this.pattern) z).isSome = found l)
    (fuel : Nat) (s : parse_state) (k : Nat)
    (hk : strchr (s.mem.drop s.p) 10 = strchr_result.found k) :
    parse_loop this file (fuel + 1) s =
      parse_loop this file fuel
        (if found ((s.mem.drop s.p).take k) then
          { mem := s.mem.set (s.p + k) 0, p := s.p + k + 1, first := false,
            line_number := u32 (s.line_number + 1),
            entries := s.entries ++ ((if s.first then [⟨0, cstr file, false⟩] else []) ++
              [⟨s.line_number, (s.mem.drop s.p).take k, false⟩]) }
        else
          { mem := s.mem.set (s.p + k) 0, p := s.p + k + 1, first := s.first,
            line_number := u32 (s.line_number + 1), entries := s.entries }) := by
  have hklt := strchr_lt _ _ _ hk
  have hdrop : (s.mem.set (s.p + k) 0).drop s.p = (s.mem.drop s.p).set k 0 :=
    List.set_drop.symm
  have hline : cstr ((s.mem.set (s.p + k) 0).drop s.p) = (s.mem.drop s.p).take k := by
    rw [hdrop, cstr_set _ _ hk]
  have hin : 0 ∈ (s.mem.set (s.p + k) 0).drop s.p := by
    rw [hdrop]
    exact List.mem_set _ k hklt 0
  have hpl := parse_line_entries this file found hfound
    { s with mem := s.mem.set (s.p + k) 0 } k hin
  simp only [hline] at hpl
  rw [parse_loop]
  simp only [hk, hpl]
  by_cases hf : found ((s.mem.drop s.p).take k) = true
  · simp only [hf, if_true]
  · simp only [hf, if_false, Bool.false_eq_true]

/-- What is left of the mapping after the line feed found `k` bytes on. -/
theorem drop_after_line (s : parse_state) (c z : List Nat) (k : Nat)
    (hmem : s.mem.drop s.p = c ++ z) (hk : k < c.length) :
    (s.mem.set (s.p + k) 0).drop (s.p + k + 1) = c.drop (k + 1) ++ z := by
  rw [List.drop_set_of_lt 0 s.mem (by omega), Nat.add_assoc, ← List.drop_drop, hmem,
    List.drop_append_of_le_length (by omega)]

theorem parse_loop_emits (this : search) (file : List Nat) (found : List Nat → Bool)
    (hfound : ∀ l z, (this.parser l (cstr this.pattern) z).isSome = found l)
    (p_len : Nat) (z : List Nat) (hz : ∀ x ∈ z, x = 0) (hz0 : 0 ∈ z) :
    ∀ (fuel : Nat) (s : parse_state) (c : List Nat), s.mem.drop s.p = c ++ z → 0 ∉ c →
      s.p + c.length = p_len → c.length < fuel →
      ∃ s', parse_loop this file fuel s = outcome.done s' ∧
        (if s'.p < 0 + p_len then
            (parse_line this file s' (-(s'.p : Int))).map (fun s1 => s1.entries)
          else outcome.done s'.entries)
        = outcome.done
            (s.entries ++ emitted found (cstr file) s.first s.line_number (file_lines c)) := by
  intro fuel
  induction fuel with
  | zero => intro s c _ _ _ h; exact absurd h (Nat.not_lt_zero _)
  | succ fuel ih =>
    intro s c hmem hnul hplen hlen
    have hin : 0 ∈ s.mem.drop s.p := by
      rw [hmem]
      exact List.mem_append_right c hz0
    cases hk : strchr (s.mem.drop s.p) 10 with
    | past_end => exact absurd hk (strchr_of_mem_nul _ _ hin)
    | null =>
      refine ⟨s, by rw [parse_loop]; simp only [hk], ?_⟩
      rw [hmem] at hk
      rw [file_lines_of_strchr_null c z hk hnul, parse_line_entries this file found hfound _ _ hin,
        hmem, cstr_append_zeros c z hnul hz]
      by_cases hc : c = []
      · subst hc
        have hp : ¬ s.p < 0 + p_len := by simp at hplen; omega
        rw [if_neg hp, if_pos rfl, emitted_nil, List.append_nil]
      · have hp : s.p < 0 + p_len := by
          have := List.length_pos.mpr hc
          omega
        rw [if_pos hp, if_neg hc, emitted_cons, emitted_nil]
        by_cases hf : found c = true
        · simp [hf, outcome.map]
        · simp [hf, outcome.map, emitted_nil]
    | found k =>
      have hkc : strchr c 10 = strchr_result.found k :=
        strchr_append_zeros c z k hz (hmem ▸ hk)
      have hklt := strchr_lt _ _ _ hkc
      have htake : (s.mem.drop s.p).take k = c.take k := by
        rw [hmem, List.take_append_of_le_length (by omega)]
      have hafter := drop_after_line s c z k hmem hklt
      have hnul' : 0 ∉ c.drop (k + 1) := fun hc => hnul (List.mem_of_mem_drop hc)
      have hlen' : (c.drop (k + 1)).length < fuel := by
        simp only [List.length_drop]
        omega
      have hplen' : s.p + k + 1 + (c.drop (k + 1)).length = p_len := by
        simp only [List.length_drop]
        omega
      rw [parse_loop_step this file found hfound fuel s k hk, htake,
        file_lines_of_strchr_found _ _ hkc, emitted_cons]
      by_cases hf : found (c.take k) = true
      · simp only [hf, if_true]
        obtain ⟨s', h1, h3⟩ := ih
          { mem := s.mem.set (s.p + k) 0, p := s.p + k + 1, first := false,
            line_number := u32 (s.line_number + 1),
            entries := s.entries ++ ((if s.first then [⟨0, cstr file, false⟩] else []) ++
              [⟨s.line_number, c.take k, false⟩]) }
          (c.drop (k + 1)) hafter hnul' hplen' hlen'
        refine ⟨s', h1, ?_⟩
        rw [h3]
        simp only [List.append_assoc, List.singleton_append]
      · simp only [hf, if_false, Bool.false_eq_true]
        obtain ⟨s', h1, h3⟩ := ih
          { mem := s.mem.set (s.p + k) 0, p := s.p + k + 1, first := s.first,
            line_number := u32 (s.line_number + 1), entries := s.entries }
          (c.drop (k + 1)) hafter hnul' hplen' hlen'
        exact ⟨s', h1, h3⟩

/-- On a content without NUL byte whose size is not a multiple of the page size
`parse_file_contents` returns, and appends the header and the match lines of the
file, the line counter being a `uint32_t`. -/
theorem parse_file_contents_emits (this : search) (file content : List Nat)
    (found : List Nat → Bool)
    (hfound : ∀ l z, (this.parser l (cstr this.pattern) z).isSome = found l)
    (page_size : Nat) (hpos : 0 < page_size) (hpage : content.length % page_size ≠ 0)
    (hnul : 0 ∉ content) :
    parse_file_contents this file (mmap page_size content) content.length
      = outcome.done
          (this.entries ++ emitted found (cstr file) true 1 (file_lines content)) := by
  obtain ⟨z, hmap, hz, hz0⟩ := mmap_zeros page_size content
  obtain ⟨s', h1, h3⟩ := parse_loop_emits this file found hfound content.length z hz
    (hz0 hpos hpage) ((mmap page_size content).length + 1)
    ⟨mmap page_size content, 0, true, 1, this.entries⟩ content
    (by rw [List.drop_zero, hmap]) hnul (Nat.zero_add _)
    (by rw [hmap, List.length_append]; omega)
  unfold parse_file_contents
  rw [h1]
  exact h3

/-- A content without NUL byte whose size is a multiple of the page size has no
byte after it in the mapping: the loop of `parse_file_contents` reads past the
mapping, at the latest when it looks for a line feed after the last line. -/
theorem parse_loop_reads_past (this : search) (file : List Nat) (found : List Nat → Bool)
    (hfound : ∀ l z, (this.parser l (cstr this.pattern) z).isSome = found l) :
    ∀ (fuel : Nat) (s : parse_state), 0 ∉ s.mem.drop s.p → (s.mem.drop s.p).length < fuel →
      parse_loop this file fuel s = outcome.read_past_mapping := by
  intro fuel
  induction fuel with
  | zero => intro s _ h; exact absurd h (Nat.not_lt_zero _)
  | succ fuel ih =>
    intro s hnul hlen
    cases hk : strchr (s.mem.drop s.p) 10 with
    | past_end => rw [parse_loop]; simp only [hk]
    | null => exact absurd hk (strchr_of_no_nul _ _ hnul)
    | found k =>
      have hklt := strchr_lt _ _ _ hk
      have hafter := drop_after_line s (s.mem.drop s.p) [] k (List.append_nil _).symm hklt
      rw [List.append_nil] at hafter
      have hnul' : 0 ∉ (s.mem.drop s.p).drop (k + 1) := fun hc => hnul (List.mem_of_mem_drop hc)
      have hlen' : ((s.mem.drop s.p).drop (k + 1)).length < fuel := by
        rw [List.length_drop]
        omega
      rw [parse_loop_step this file found hfound fuel s k hk]
      by_cases hf : found ((s.mem.drop s.p).take k) = true
      · simp only [hf, if_true]
        exact ih _ (by dsimp only; rw [hafter]; exact hnul')
          (by dsimp only; rw [hafter]; exact hlen')
      · simp only [hf, if_false, Bool.false_eq_true]
        exact ih _ (by dsimp only; rw [hafter]; exact hnul')
          (by dsimp only; rw [hafter]; exact hlen')

theorem parse_file_contents_reads_past (this : search) (file content : List Nat)
    (found : List Nat → Bool)
    (hfound : ∀ l z, (this.parser l (cstr this.pattern) z).isSome = found l)
    (page_size : Nat) (hpage : content.length % page_size = 0) (hnul : 0 ∉ content) :
    parse_file_contents this file (mmap page_size content) content.length
      = outcome.read_past_mapping := by
  have hmap : mmap page_size content = content := by
    unfold mmap
    rw [hpage, Nat.sub_zero, Nat.mod_self, List.replicate_zero, List.append_nil]
  unfold parse_file_contents
  rw [hmap, parse_loop_reads_past this file found hfound (content.length + 1)
    ⟨content, 0, true, 1, this.entries⟩ (by simpa using hnul) (by simp)]

theorem counted_lines_eq (found : List Nat → Bool) (ls : List (List Nat)) :
    ∀ n, n + ls.length ≤ 4294967296 →
      counted_lines found n ls
        = ((ls.enumFrom n).filter (fun x => found x.2)).map (fun x => ⟨x.1, x.2, false⟩) := by
  induction ls with
  | nil => intro n _; simp [counted_lines]
  | cons l ls ih =>
    intro n hn
    simp only [List.length_cons] at hn
    have hls : ls = [] ∨ u32 (n + 1) = n + 1 := by
      cases ls with
      | nil => exact Or.inl rfl
      | cons a as =>
        right
        simp only [List.length_cons] at hn
        unfold u32
        omega
    have hrest : counted_lines found (u32 (n + 1)) ls
        = ((ls.enumFrom (n + 1)).filter (fun x => found x.2)).map
            (fun x => ⟨x.1, x.2, false⟩) := by
      rcases hls with rfl | hw
      · simp [counted_lines]
      · rw [hw]
        exact ih (n + 1) (by omega)
    by_cases hf : found l = true
    · simp [counted_lines, hf, hrest, List.filter_cons]
    · simp [counted_lines, hf, hrest, List.filter_cons]

theorem emitted_eq_expected (found : List Nat → Bool) (file content : List Nat)
    (hcount : (file_lines content).length < 4294967296) :
    emitted found file true 1 (file_lines content) = expected_entries found file content := by
  unfold emitted expected_entries matching_lines
  rw [counted_lines_eq found _ 1 (by omega)]
  cases ((file_lines content).enumFrom 1).filter (fun x => found x.2) with
  | nil => simp
  | cons h t => simp

theorem file_lines_replicate (n : Nat) (s : List Nat) :
    file_lines (List.replicate n 10 ++ s) = List.replicate n [] ++ file_lines s := by
  induction n with
  | zero => simp
  | succ n ih => rw [List.replicate_succ, List.cons_append, file_lines_cons, ih]; simp [List.replicate_succ]

theorem counted_lines_skip (found : List Nat → Bool) (hempty : found [] = false)
    (ls : List (List Nat)) :
    ∀ (k n : Nat), n < 4294967296 →
      counted_lines found n (List.replicate k [] ++ ls) = counted_lines found (u32 (n + k)) ls := by
  intro k
  induction k with
  | zero =>
    intro n hn
    have : u32 (n : Int) = n := by unfold u32; omega
    simp [this]
  | succ k ih =>
    intro n hn
    have hlt : u32 ((n : Int) + 1) < 4294967296 := by unfold u32; omega
    have hw : u32 ((u32 ((n : Int) + 1) : Int) + (k : Nat)) = u32 ((n : Int) + ((k + 1 : Nat) : Int)) := by
      unfold u32; omega
    rw [List.replicate_succ, List.cons_append]
    simp only [counted_lines, hempty, Bool.false_eq_true, if_false]
    rw [ih _ hlt, hw]

/-! ## The claims on `parse_file_contents` -/

/-- C1 (amended): for every file content without a NUL byte, with fewer than
2^32 lines and of a size that is not a multiple of the page size, and every
pattern, `parse_file_contents` on the mapping of the file returns and appends to
the store nothing when no line contains the pattern, and otherwise one file
header followed, in file order, by one entry for each line that contains the
pattern, the lines being obtained by splitting on line feed (a final line
without a terminating line feed is still tested), each entry with the 1-based
number of its line and the unmodified text of the line. -/
theorem parse_file_contents_spec (page_size : Nat) (pattern file content : List Nat)
    (es : List entry) (ci : Bool)
    (hpos : 0 < page_size) (hpage : content.length % page_size ≠ 0)
    (hnul : 0 ∉ content) (hcount : (file_lines content).length < 4294967296) :
    parse_file_contents (search_new pattern es ci) file (mmap page_size content) content.length
      = outcome.done
          (es ++ expected_entries (contains_pattern ci (cstr pattern)) (cstr file) content) := by
  rw [parse_file_contents_emits (search_new pattern es ci) file content
    (contains_pattern ci (cstr pattern)) (fun l z => search_new_found pattern es ci l z)
    page_size hpos hpage hnul,
    emitted_eq_expected _ _ _ hcount]
  rfl

/-- Witness of C1 (amended): the file `a⏎foo⏎bfoo` scanned for `foo`, the pages
being of 4096 bytes. -/
theorem parse_file_contents_spec_witness :
    (0 < 4096 ∧ [97, 10, 102, 111, 111, 10, 98, 102, 111, 111].length % 4096 ≠ 0 ∧
      0 ∉ [97, 10, 102, 111, 111, 10, 98, 102, 111, 111] ∧
      (file_lines [97, 10, 102, 111, 111, 10, 98, 102, 111, 111]).length < 4294967296) ∧
    parse_file_contents (search_new [102, 111, 111] [] false) [120]
        (mmap 4096 [97, 10, 102, 111, 111, 10, 98, 102, 111, 111])
        [97, 10, 102, 111, 111, 10, 98, 102, 111, 111].length
      = outcome.done
          ([] ++ expected_entries (contains_pattern false (cstr [102, 111, 111])) (cstr [120])
            [97, 10, 102, 111, 111, 10, 98, 102, 111, 111]) :=
  ⟨⟨by decide, by decide, by decide, by decide⟩,
    parse_file_contents_spec 4096 [102, 111, 111] [120]
      [97, 10, 102, 111, 111, 10, 98, 102, 111, 111]
      [] false (by decide) (by decide) (by decide) (by decide)⟩

theorem parse_file_contents_after_empty_lines (n page_size : Nat) (hpos : 0 < page_size)
    (hpage : (n + 2) % page_size ≠ 0) :
    parse_file_contents (search_new [97] [] false) [120]
        (mmap page_size (List.replicate n 10 ++ [97, 10])) (n + 2)
      = outcome.done
          [⟨0, [120], false⟩, ⟨u32 (((1 : Nat) : Int) + (n : Int)), [97], false⟩] := by
  have hlen : (List.replicate n 10 ++ [97, 10]).length = n + 2 := by
    rw [List.length_append, List.length_replicate]
    rfl
  have hnul : 0 ∉ List.replicate n 10 ++ [97, 10] := by
    intro h
    rcases List.mem_append.mp h with h1 | h2
    · exact absurd (List.eq_of_mem_replicate h1) (by decide)
    · exact absurd h2 (by decide)
  have hrun := parse_file_contents_emits (search_new [97] [] false) [120]
    (List.replicate n 10 ++ [97, 10]) (contains_pattern false (cstr [97]))
    (fun l z => search_new_found [97] [] false l z) page_size hpos (by rw [hlen]; exact hpage)
    hnul
  rw [hlen] at hrun
  rw [hrun, file_lines_replicate]
  have hlast : file_lines [97, 10] = [[97]] := by decide
  have hempty : contains_pattern false (cstr [97]) [] = false := by decide
  have hhit : contains_pattern false (cstr [97]) [97] = true := by decide
  have hfile : cstr [120] = [120] := by decide
  unfold emitted
  rw [hlast, counted_lines_skip _ hempty _ n 1 (by decide), hfile]
  simp only [counted_lines, hhit, if_true]
  rfl

/-- The file of `n` bytes `a` and a line feed, `n + 1` being a multiple of the
page size: whatever the pattern, the scan reads past the mapping. -/
theorem parse_file_contents_full_page (pattern : List Nat) (n page_size : Nat)
    (hpage : (n + 1) % page_size = 0) :
    parse_file_contents (search_new pattern [] false) [120]
        (mmap page_size (List.replicate n 97 ++ [10])) (n + 1)
      = outcome.read_past_mapping := by
  have hlen : (List.replicate n 97 ++ [10]).length = n + 1 := by
    rw [List.length_append, List.length_replicate]
    rfl
  have hnul : 0 ∉ List.replicate n 97 ++ [10] := by
    intro h
    rcases List.mem_append.mp h with h1 | h2
    · exact absurd (List.eq_of_mem_replicate h1) (by decide)
    · exact absurd h2 (by decide)
  have hrun := parse_file_contents_reads_past (search_new pattern [] false) [120]
    (List.replicate n 97 ++ [10]) (contains_pattern false (cstr pattern))
    (fun l z => search_new_found pattern [] false l z) page_size (by rw [hlen]; exact hpage)
    hnul
  rw [hlen] at hrun
  exact hrun

theorem matching_lines_skip (found : List Nat → Bool) (hempty : found [] = false)
    (ls : List (List Nat)) :
    ∀ (n k : Nat), ((List.replicate n [] ++ ls).enumFrom k).filter (fun x => found x.2)
      = (ls.enumFrom (k + n)).filter (fun x => found x.2) := by
  intro n
  induction n with
  | zero => intro k; rfl
  | succ n ih =>
    intro k
    rw [List.replicate_succ, List.cons_append, List.enumFrom_cons, List.filter_cons]
    simp only [hempty, Bool.false_eq_true, if_false]
    rw [ih (k + 1), Nat.add_assoc, Nat.add_comm 1 n]

theorem expected_entries_after_empty_lines (n : Nat) :
    expected_entries (contains_pattern false (cstr [97])) (cstr [120])
        (List.replicate n 10 ++ [97, 10])
      = [⟨0, [120], false⟩, ⟨1 + n, [97], false⟩] := by
  have hlast : file_lines [97, 10] = [[97]] := by decide
  have hempty : contains_pattern false (cstr [97]) [] = false := by decide
  have hhit : contains_pattern false (cstr [97]) [97] = true := by decide
  have hfile : cstr [120] = [120] := by decide
  unfold expected_entries matching_lines
  rw [file_lines_replicate, hlast, matching_lines_skip _ hempty, hfile]
  simp only [List.enumFrom_cons, List.enumFrom_nil, List.filter_cons, hhit, if_true,
    List.filter_nil, List.map_cons, List.map_nil]

/-- A content that starts with a NUL byte, scanned for `foo`: the scan ends at
once, on an empty line that does not hold the pattern. -/
theorem parse_file_contents_leading_nul (rest : List Nat) (page_size : Nat) :
    parse_file_contents (search_new [102, 111, 111] [] false) [120]
        (mmap page_size (0 :: rest)) (0 :: rest).length
      = outcome.done [] := by
  have hmap : mmap page_size (0 :: rest)
      = 0 :: (rest ++ List.replicate
          ((page_size - (0 :: rest).length % page_size) % page_size) 0) := rfl
  rw [hmap]
  generalize rest ++ List.replicate
    ((page_size - (0 :: rest).length % page_size) % page_size) 0 = tl
  have hloop : ∀ fuel, parse_loop (search_new [102, 111, 111] [] false) [120] (fuel + 1)
      ⟨0 :: tl, 0, true, 1, []⟩ = outcome.done ⟨0 :: tl, 0, true, 1, []⟩ := by
    intro fuel
    rw [parse_loop]
    simp only [List.drop_zero, strchr_cons, if_pos, if_neg, OfNat.zero_ne_ofNat, if_false,
      if_true]
  have hline : parse_line (search_new [102, 111, 111] [] false) [120]
      ⟨0 :: tl, 0, true, 1, []⟩ (-((0 : Nat) : Int)) = outcome.done ⟨0 :: tl, 0, true, 1, []⟩ := by
    rw [parse_line_entries _ _ (contains_pattern false (cstr [102, 111, 111]))
      (fun l z => search_new_found [102, 111, 111] [] false l z) _ _ (by simp)]
    have hc : cstr (0 :: tl) = [] := by rw [cstr_cons, if_pos rfl]
    have hno : contains_pattern false (cstr [102, 111, 111]) [] = false := by decide
    simp only [List.drop_zero, hc, hno, Bool.false_eq_true, if_false]
  unfold parse_file_contents
  have hstart : (search_new [102, 111, 111] [] false).entries = [] := rfl
  rw [hstart, hloop]
  simp only [List.length_cons, Nat.zero_add, Nat.zero_lt_succ, if_true, hline, outcome.map]

/-- C1 as stated fails on a content with a NUL byte, on a file of 2^32 lines and
on a file whose size is a multiple of the page size (4096 bytes here).  In the
six bytes NUL, LF, `foo`, LF the second line contains the pattern `foo`, so that
a header and the entry of line 2 are expected, and `parse_file_contents` adds
nothing, the scan ending at the NUL.  In the file of 2^32 - 1 empty lines
followed by the line `a`, scanned for `a`, the entry of line 4294967296 is
expected, and the entry added carries line number 0, the `uint32_t` line counter
having wrapped.  The file of 4095 bytes `a` and a line feed fills its page: no
NUL follows it in the mapping, and the `strchr` after its line reads past the
mapping, where the call does not return the store that is expected. -/
theorem parse_file_contents_counterexample :
    (expected_entries (contains_pattern false (cstr [102, 111, 111])) (cstr [120])
        [0, 10, 102, 111, 111, 10]
      = [⟨0, [120], false⟩, ⟨2, [102, 111, 111], false⟩] ∧
    parse_file_contents (search_new [102, 111, 111] [] false) [120]
        (mmap 4096 [0, 10, 102, 111, 111, 10]) [0, 10, 102, 111, 111, 10].length
      = outcome.done []) ∧
    (expected_entries (contains_pattern false (cstr [97])) (cstr [120])
        (List.replicate 4294967295 10 ++ [97, 10])
      = [⟨0, [120], false⟩, ⟨4294967296, [97], false⟩] ∧
    parse_file_contents (search_new [97] [] false) [120]
        (mmap 4096 (List.replicate 4294967295 10 ++ [97, 10])) (4294967295 + 2)
      = outcome.done [⟨0, [120], false⟩, ⟨0, [97], false⟩]) ∧
    parse_file_contents (search_new [97] [] false) [120]
        (mmap 4096 (List.replicate 4095 97 ++ [10])) (4095 + 1)
      = outcome.read_past_mapping :=
  ⟨⟨by decide, parse_file_contents_leading_nul [10, 102, 111, 111, 10] 4096⟩,
    ⟨expected_entries_after_empty_lines 4294967295,
      parse_file_contents_after_empty_lines 4294967295 4096 (by decide) (by decide)⟩,
    parse_file_contents_full_page [97] 4095 4096 (by decide)⟩

/-! ## The shape of what `parse_file_contents` adds, for any content -/

theorem line_at (pre : List (List Nat)) (l : List Nat) (ls : List (List Nat)) :
    (pre ++ l :: ls)[pre.length]? = some l := by
  rw [List.getElem?_append_right (Nat.le_refl _), Nat.sub_self, List.getElem?_cons_zero]

theorem scan_inv_block (found : List Nat → Bool) (file : List Nat) (lines : List (List Nat))
    (first : Bool) (n : Nat) (added : List entry)
    (h : scan_inv found file lines first n added) : file_block found file lines added := by
  rcases h with ⟨_, rfl⟩ | ⟨_, hd, rest, rfl, h0, hfile, hne, hall, hpw⟩
  · exact True.intro
  · exact ⟨h0, hfile, hne,
      fun e he => ⟨(hall e he).1, (hall e he).2.2.1, (hall e he).2.2.2⟩, hpw⟩

theorem scan_inv_skip (found : List Nat → Bool) (file : List Nat) (lines : List (List Nat))
    (first : Bool) (n : Nat) (added : List entry)
    (h : scan_inv found file lines first n added) :
    scan_inv found file lines first (n + 1) added := by
  rcases h with h | ⟨hf, hd, rest, rfl, h0, hfile, hne, hall, hpw⟩
  · exact Or.inl h
  · exact Or.inr ⟨hf, hd, rest, rfl, h0, hfile, hne,
      fun e he => ⟨(hall e he).1, Nat.lt_succ_of_lt (hall e he).2.1, (hall e he).2.2⟩, hpw⟩

theorem scan_inv_add (found : List Nat → Bool) (file text : List Nat)
    (lines : List (List Nat)) (first : Bool) (n : Nat)
    (added : List entry) (h : scan_inv found file lines first n added) (hn : 1 ≤ n)
    (hfound : found text = true) (hline : (lines[n - 1]?).map cstr = some text) :
    scan_inv found file lines false (n + 1)
      (added ++ ((if first then [⟨0, file, false⟩] else []) ++ [⟨n, text, false⟩])) := by
  rcases h with ⟨hf, rfl⟩ | ⟨hf, hd, rest, rfl, h0, hfile, hne, hall, hpw⟩
  · subst hf
    refine Or.inr ⟨rfl, ⟨0, file, false⟩, [⟨n, text, false⟩], by simp, rfl, rfl, by simp,
      ?_, ?_⟩
    · intro e he
      rw [List.mem_singleton] at he
      subst he
      exact ⟨hn, Nat.lt_succ_self _, hfound, hline⟩
    · exact List.pairwise_singleton _ _
  · subst hf
    refine Or.inr ⟨rfl, hd, rest ++ [⟨n, text, false⟩], by simp, h0, hfile, by simp, ?_, ?_⟩
    · intro e he
      rcases List.mem_append.mp he with h1 | h1
      · exact ⟨(hall e h1).1, Nat.lt_succ_of_lt (hall e h1).2.1, (hall e h1).2.2⟩
      · rw [List.mem_singleton] at h1
        subst h1
        exact ⟨hn, Nat.lt_succ_self _, hfound, hline⟩
    · rw [List.pairwise_append]
      refine ⟨hpw, List.pairwise_singleton _ _, ?_⟩
      intro a ha b hb
      rw [List.mem_singleton] at hb
      subst hb
      exact (hall a ha).2.1

/-- A header is added only with a match line: the entries added for a file none
of whose lines passes the test are none. -/
theorem file_block_no_match (found : List Nat → Bool) (file : List Nat)
    (lines : List (List Nat)) (added : List entry) (h : file_block found file lines added)
    (hno : ∀ l ∈ lines, found (cstr l) = false) : added = [] := by
  cases added with
  | nil => rfl
  | cons hd rest =>
    obtain ⟨_, _, hne, hall, _⟩ := h
    obtain ⟨e, he⟩ := List.exists_mem_of_ne_nil rest hne
    obtain ⟨_, hf, hl⟩ := hall e he
    rw [Option.map_eq_some'] at hl
    obtain ⟨l, hl1, hl2⟩ := hl
    have hmem : l ∈ lines := List.getElem?_mem hl1
    have := hno l hmem
    rw [hl2, hf] at this
    exact absurd this (by decide)

theorem parse_loop_block (this : search) (file : List Nat) (found : List Nat → Bool)
    (hfound : ∀ l z, (this.parser l (cstr this.pattern) z).isSome = found l)
    (es0 : List entry) (p_len : Nat) (z : List Nat) (hz : ∀ x ∈ z, x = 0)
    (lines : List (List Nat)) :
    ∀ (fuel : Nat) (s : parse_state) (c : List Nat) (n : Nat) (added : List entry)
      (pre : List (List Nat)),
      s.mem.drop s.p = c ++ z → 0 ∈ c ++ z → s.p + c.length = p_len → c.length < fuel →
      s.entries = es0 ++ added → s.line_number = n % 4294967296 →
      n + (file_lines c).length ≤ 4294967296 →
      lines = pre ++ file_lines c → pre.length + 1 = n →
      scan_inv found (cstr file) lines s.first n added →
      ∃ s' added', parse_loop this file fuel s = outcome.done s' ∧
        (if s'.p < 0 + p_len then
            (parse_line this file s' (-(s'.p : Int))).map (fun s1 => s1.entries)
          else outcome.done s'.entries) = outcome.done (es0 ++ added') ∧
        file_block found (cstr file) lines added' := by
  intro fuel
  induction fuel with
  | zero => intro s c n added pre _ _ _ h; exact absurd h (Nat.not_lt_zero _)
  | succ fuel ih =>
    intro s c n added pre hmem hin hplen hlen hentries hln hcount hlines hpre hinv
    have hn : 1 ≤ n := by omega
    have hin' : 0 ∈ s.mem.drop s.p := hmem ▸ hin
    cases hk : strchr (s.mem.drop s.p) 10 with
    | past_end => exact absurd hk (strchr_of_mem_nul _ _ hin')
    | null =>
      have hloop : parse_loop this file (fuel + 1) s = outcome.done s := by
        rw [parse_loop]
        simp only [hk]
      by_cases hc : c = []
      · have hp : ¬ s.p < 0 + p_len := by
          subst hc
          simp at hplen
          omega
        refine ⟨s, added, hloop, ?_, scan_inv_block found _ _ _ _ _ hinv⟩
        rw [if_neg hp, hentries]
      · have hp : s.p < 0 + p_len := by
          have := List.length_pos.mpr hc
          omega
        have hpos : 0 < (file_lines c).length :=
          List.length_pos.mpr (file_lines_ne_nil _ hc)
        have hln' : s.line_number = n := by omega
        obtain ⟨l, ls, hl, hcs⟩ := cstr_first_line c z hz (hmem ▸ hk) hc
        have hline : (lines[n - 1]?).map cstr = some (cstr (s.mem.drop s.p)) := by
          have hidx : n - 1 = pre.length := by omega
          rw [hidx, hlines, hl, line_at, hmem, hcs]
          rfl
        by_cases hf : found (cstr (s.mem.drop s.p)) = true
        · refine ⟨s, added ++ ((if s.first then [⟨0, cstr file, false⟩] else []) ++
              [⟨n, cstr (s.mem.drop s.p), false⟩]), hloop, ?_, ?_⟩
          · rw [if_pos hp, parse_line_entries this file found hfound _ _ hin', if_pos hf]
            simp only [outcome.map]
            rw [hentries, List.append_assoc, hln']
          · exact scan_inv_block found _ _ false (n + 1) _
              (scan_inv_add found (cstr file) _ lines s.first n added hinv hn hf hline)
        · refine ⟨s, added, hloop, ?_, scan_inv_block found _ _ _ _ _ hinv⟩
          rw [if_pos hp, parse_line_entries this file found hfound _ _ hin', if_neg hf]
          simp only [outcome.map]
          rw [hentries]
    | found k =>
      have hkc : strchr c 10 = strchr_result.found k :=
        strchr_append_zeros c z k hz (hmem ▸ hk)
      have hklt := strchr_lt _ _ _ hkc
      have htake : (s.mem.drop s.p).take k = c.take k := by
        rw [hmem, List.take_append_of_le_length (by omega)]
      have hafter := drop_after_line s c z k hmem hklt
      have hin2 : 0 ∈ c.drop (k + 1) ++ z := by
        have := strchr_nul_after _ k (hmem ▸ hk) hin
        rwa [List.drop_append_of_le_length (by omega)] at this
      have hlen' : (c.drop (k + 1)).length < fuel := by
        simp only [List.length_drop]
        omega
      have hplen' : s.p + k + 1 + (c.drop (k + 1)).length = p_len := by
        simp only [List.length_drop]
        omega
      have hfl := file_lines_of_strchr_found _ _ hkc
      rw [hfl, List.length_cons] at hcount
      have hln' : s.line_number = n := by omega
      have hnext : u32 ((s.line_number : Int) + 1) = (n + 1) % 4294967296 := by
        rw [hln']
        unfold u32
        omega
      have hlines' : lines = (pre ++ [c.take k]) ++ file_lines (c.drop (k + 1)) := by
        rw [hlines, hfl, List.append_assoc, List.singleton_append]
      have hpre' : (pre ++ [c.take k]).length + 1 = n + 1 := by
        rw [List.length_append, List.length_singleton]
        omega
      have hline : (lines[n - 1]?).map cstr = some (c.take k) := by
        have hidx : n - 1 = pre.length := by omega
        rw [hidx, hlines, hfl, line_at, Option.map_some',
          cstr_of_no_nul _ (strchr_take_no_nul _ _ _ hkc)]
      rw [parse_loop_step this file found hfound fuel s k hk, htake]
      by_cases hf : found (c.take k) = true
      · simp only [hf, if_true]
        exact ih
          { mem := s.mem.set (s.p + k) 0, p := s.p + k + 1, first := false,
            line_number := u32 (s.line_number + 1),
            entries := s.entries ++ ((if s.first then [⟨0, cstr file, false⟩] else []) ++
              [⟨s.line_number, c.take k, false⟩]) }
          (c.drop (k + 1)) (n + 1)
          (added ++ ((if s.first then [⟨0, cstr file, false⟩] else []) ++
              [⟨n, c.take k, false⟩]))
          (pre ++ [c.take k])
          hafter hin2 hplen' hlen'
          (by dsimp only; rw [hentries, List.append_assoc, hln'])
          hnext (by omega) hlines' hpre'
          (scan_inv_add found (cstr file) _ lines s.first n added hinv hn hf hline)
      · simp only [hf, if_false, Bool.false_eq_true]
        exact ih
          { mem := s.mem.set (s.p + k) 0, p := s.p + k + 1, first := s.first,
            line_number := u32 (s.line_number + 1), entries := s.entries }
          (c.drop (k + 1)) (n + 1) added (pre ++ [c.take k])
          hafter hin2 hplen' hlen' hentries hnext (by omega) hlines' hpre'
          (scan_inv_skip found (cstr file) lines s.first n added hinv)

/-- C2 (amended): for every file content with fewer than 2^32 lines whose
mapping holds a NUL byte (the content has one, or its size is not a multiple of
the page size) and every pattern, `parse_file_contents` returns, and the
sequence of entries it appends is either empty or consists of exactly one header
of the file (line number 0) in first position followed by one or more match
lines with strictly increasing line numbers at least 1, each the line of the
file with that number, taken up to its first NUL, and containing the pattern; so
a file without a matching line never produces a header, and a header is never
the last entry appended. -/
theorem parse_file_contents_block (page_size : Nat) (pattern file content : List Nat)
    (es : List entry) (ci : Bool)
    (hterm : 0 ∈ content ∨ (0 < page_size ∧ content.length % page_size ≠ 0))
    (hcount : (file_lines content).length < 4294967296) :
    ∃ added, parse_file_contents (search_new pattern es ci) file (mmap page_size content)
          content.length
        = outcome.done (es ++ added) ∧
      file_block (contains_pattern ci (cstr pattern)) (cstr file) (file_lines content) added ∧
      ((∀ l ∈ file_lines content, contains_pattern ci (cstr pattern) (cstr l) = false) →
        added = []) := by
  obtain ⟨z, hmap, hz, hz0⟩ := mmap_zeros page_size content
  have hin : 0 ∈ content ++ z := by
    rcases hterm with h | ⟨hpos, hpage⟩
    · exact List.mem_append_left z h
    · exact List.mem_append_right content (hz0 hpos hpage)
  obtain ⟨s', added', h1, h3, h4⟩ := parse_loop_block (search_new pattern es ci) file
    (contains_pattern ci (cstr pattern)) (fun l z => search_new_found pattern es ci l z) es
    content.length z hz (file_lines content)
    ((mmap page_size content).length + 1) ⟨mmap page_size content, 0, true, 1, es⟩
    content 1 [] []
    (by rw [List.drop_zero, hmap]) hin (Nat.zero_add _)
    (by rw [hmap, List.length_append]; omega)
    (by simp) rfl (by omega) (by simp) rfl (Or.inl ⟨rfl, rfl⟩)
  refine ⟨added', ?_, h4, file_block_no_match _ _ _ _ h4⟩
  unfold parse_file_contents
  have hstart : (search_new pattern es ci).entries = es := rfl
  rw [hstart, h1]
  exact h3

/-- Witness of C2 (amended): the bytes `foo`, LF, NUL, LF, `foo`, LF scanned for
`foo`, the pages being of 4096 bytes; the scan ends at the NUL. -/
theorem parse_file_contents_block_witness :
    ((0 ∈ [102, 111, 111, 10, 0, 10, 102, 111, 111, 10] ∨
        (0 < 4096 ∧ [102, 111, 111, 10, 0, 10, 102, 111, 111, 10].length % 4096 ≠ 0)) ∧
      (file_lines [102, 111, 111, 10, 0, 10, 102, 111, 111, 10]).length < 4294967296) ∧
    (∃ added, parse_file_contents (search_new [102, 111, 111] [] false) [120]
          (mmap 4096 [102, 111, 111, 10, 0, 10, 102, 111, 111, 10])
          [102, 111, 111, 10, 0, 10, 102, 111, 111, 10].length
        = outcome.done ([] ++ added) ∧
      file_block (contains_pattern false (cstr [102, 111, 111])) (cstr [120])
        (file_lines [102, 111, 111, 10, 0, 10, 102, 111, 111, 10]) added ∧
      ((∀ l ∈ file_lines [102, 111, 111, 10, 0, 10, 102, 111, 111, 10],
          contains_pattern false (cstr [102, 111, 111]) (cstr l) = false) →
        added = [])) :=
  ⟨⟨by decide, by decide⟩,
    parse_file_contents_block 4096 [102, 111, 111] [120]
      [102, 111, 111, 10, 0, 10, 102, 111, 111, 10] [] false (by decide) (by decide)⟩

/-- Two entries with line number 0 are no header followed by match lines. -/
theorem file_block_wrapped (found : List Nat → Bool) (file : List Nat)
    (lines : List (List Nat)) :
    ¬ file_block found file lines [⟨0, [120], false⟩, ⟨0, [97], false⟩] := by
  intro h
  have h1 := (h.2.2.2.1 ⟨0, [97], false⟩ (List.mem_singleton.mpr rfl)).1
  exact absurd h1 (by decide)

/-- C2 as stated fails on a file of 2^32 lines and on a file whose size is a
multiple of the page size (4096 bytes here).  In the file of 2^32 - 1 empty
lines followed by the line `a`, scanned for `a`, the `uint32_t` line counter has
wrapped to 0 when the last line is reached, and the match line is stored with
line number 0, the mark of a file header: the entries added are not a header
followed by match lines with line numbers at least 1.  The file of 4095 bytes
`a` and a line feed, scanned for `b`, has no matching line and fills its page:
no NUL follows it in the mapping and the `strchr` after its line reads past the
mapping, where the call does not return the store with nothing appended. -/
theorem parse_file_contents_line_number_wraps :
    (parse_file_contents (search_new [97] [] false) [120]
        (mmap 4096 (List.replicate 4294967295 10 ++ [97, 10])) (4294967295 + 2)
      = outcome.done ([] ++ [⟨0, [120], false⟩, ⟨0, [97], false⟩]) ∧
    ¬ file_block (contains_pattern false (cstr [97])) (cstr [120])
        (file_lines (List.replicate 4294967295 10 ++ [97, 10]))
        [⟨0, [120], false⟩, ⟨0, [97], false⟩]) ∧
    parse_file_contents (search_new [98] [] false) [120]
        (mmap 4096 (List.replicate 4095 97 ++ [10])) (4095 + 1)
      = outcome.read_past_mapping :=
  ⟨⟨parse_file_contents_after_empty_lines 4294967295 4096 (by decide) (by decide),
      file_block_wrapped _ _ _⟩,
    parse_file_contents_full_page [98] 4095 4096 (by decide)⟩

/-! ## Lemmas on machine integers and on the store -/

theorem u32_of_range (x : Int) (h0 : 0 ≤ x) (h1 : x < 4294967296) : u32 x = x.toNat := by
  unfold u32
  omega

theorem i32_of_range (x : Int) (h0 : -2147483648 ≤ x) (h1 : x < 2147483648) : i32 x = x := by
  unfold i32
  omega

theorem entries_get_data_isNone (es : List entry) (i : Nat) :
    (entries_get_data es i).isNone = true ↔ es.length ≤ i := by
  unfold entries_get_data
  rw [List.get?_eq_getElem?]
  by_cases h : i < es.length
  · simp [List.getElem?_eq_getElem h]
    omega
  · simp [List.getElem?_eq_none (Nat.le_of_not_lt h)]
    omega

theorem entries_is_file_lt (es : List entry) (i : Nat) (h : entries_is_file es i = true) :
    i < es.length := by
  unfold entries_is_file at h
  rw [List.get?_eq_getElem?] at h
  by_cases hi : i < es.length
  · exact hi
  · rw [List.getElem?_eq_none (Nat.le_of_not_lt hi)] at h
    exact absurd h (by simp)

theorem headers_followed_at (es : List entry) (hf : headers_followed es) (i : Nat)
    (h : entries_is_file es i = true) :
    i + 1 < es.length ∧ entries_is_file es (i + 1) = false :=
  hf i (entries_is_file_lt es i h) h

theorem index_multiple (index : Nat) (r : Int) (h : (index : Int) % r = 0)
    (hne : index ≠ 0) : r ≤ index := by
  by_contra hlt
  have h2 : (index : Int) % r = index := Int.emod_eq_of_lt (by omega) (by omega)
  omega

theorem index_add_multiple (index : Nat) (r : Int) (h : (index : Int) % r = 0) :
    ((index : Int) + r) % r = 0 := by
  rw [Int.add_emod_self]
  exact h

theorem index_sub_multiple (index : Nat) (r : Int) (h : (index : Int) % r = 0) :
    ((index : Int) - r) % r = 0 := by
  have : ((index : Int) - r + r) % r = 0 := by
    rw [Int.sub_add_cancel]
    exact h
  rwa [Int.add_emod_self] at this

theorem u32_eq_nat (x : Int) (n : Nat) (h1 : x = n) (h2 : n < 4294967296) : u32 x = n := by
  unfold u32
  omega

theorem on_match_line_intro (l : Nat) (es : List entry) (index : Nat) (cur : Int)
    (pats : List Nat) (dvs : Int) (n : Nat)
    (hmod : (index : Int) % ((l : Int) - 1) = 0) (h0 : 0 ≤ cur) (h1 : cur ≤ (l : Int) - 2)
    (hn : (index : Int) + cur = n) (hlt : n < es.length)
    (hfile : entries_is_file es n = false) :
    on_match_line l es ⟨index, cur, pats, dvs⟩ := by
  refine ⟨hmod, h0, h1, ?_, ?_⟩
  · show (index : Int) + cur < es.length
    omega
  · show entries_is_file es ((index : Int) + cur).toNat = false
    have : ((index : Int) + cur).toNat = n := by omega
    rw [this]
    exact hfile

theorem key_down_cases (LINES : Int) (es : List entry) (d : display)
    (hN : es.length < 4294967296) (hL : 3 ≤ LINES) (hL2 : LINES < 2147483648)
    (hf : headers_followed es) (hs : on_match_line LINES es d) :
    on_match_line LINES es (key_down LINES d es) ∧
    ((key_down LINES d es).index : Int) + (key_down LINES d es).cursor =
      if es.length ≤ (d.index + d.cursor).toNat + 1 then (d.index : Int) + d.cursor
      else if entries_is_file es ((d.index + d.cursor).toNat + 1) then
        (d.index : Int) + d.cursor + 2
      else (d.index : Int) + d.cursor + 1 := by
  obtain ⟨hmod, hc0, hc1, hpos, hline⟩ := hs
  obtain ⟨index, cursor, pats, dvs⟩ := d
  simp only at hmod hc0 hc1 hpos hline ⊢
  obtain ⟨c, rfl⟩ := Int.eq_ofNat_of_zero_le hc0
  obtain ⟨l, rfl⟩ : ∃ l : Nat, LINES = l := ⟨LINES.toNat, by omega⟩
  have hp : ((index : Int) + (c : Int)).toNat = index + c := by omega
  rw [hp] at hline ⊢
  by_cases hlast : es.length ≤ index + c + 1
  · have hnone := (entries_get_data_isNone es (index + c + 1)).mpr hlast
    have hkd : key_down l ⟨index, c, pats, dvs⟩ es = ⟨index, c, pats, dvs⟩ := by
      simp (disch := omega) only [key_down, u32_eq_nat _ (index + c + 1), hnone, if_true]
    rw [hkd, if_pos hlast]
    exact ⟨on_match_line_intro l es index c pats dvs (index + c) hmod hc0 hc1 (by omega)
      (by omega) hline, rfl⟩
  · have hsome : (entries_get_data es (index + c + 1)).isNone = false := by
      cases h : (entries_get_data es (index + c + 1)).isNone
      · rfl
      · exact absurd ((entries_get_data_isNone es (index + c + 1)).mp h) hlast
    rw [if_neg hlast]
    have hmod' : ∀ n : Nat, (n : Int) = (index : Int) + ((l : Int) - 1) →
        (n : Int) % ((l : Int) - 1) = 0 := by
      intro n hn
      rw [hn]
      exact index_add_multiple _ _ hmod
    by_cases hfile : entries_is_file es (index + c + 1) = true
    · obtain ⟨h1, h2⟩ := headers_followed_at es hf _ hfile
      have h2' : entries_is_file es (index + c + 2) = false := h2
      rw [if_pos hfile]
      by_cases hpage : c + 2 = l
      · have hkd : key_down l ⟨index, c, pats, dvs⟩ es = ⟨index + c + 1, 0 + 1, pats, dvs⟩ := by
          simp (disch := omega) only [key_down, page_down, entries_get_nb_entries,
            u32_eq_nat _ (index + c + 1), hsome, hfile,
            i32_of_range, if_pos, if_neg, if_true, if_false, eq_self_iff_true,
            Bool.false_eq_true]
        rw [hkd]
        exact ⟨on_match_line_intro l es _ _ pats dvs (index + c + 2) (hmod' _ (by omega))
          (by omega) (by omega) (by omega) (by omega) h2', by dsimp only; omega⟩
      · by_cases hedge : c + 3 = l
        · have hkd : key_down l ⟨index, c, pats, dvs⟩ es = ⟨index + c + 2, 0, pats, dvs⟩ := by
            simp (disch := omega) only [key_down, page_down, entries_get_nb_entries,
              u32_eq_nat _ (index + c + 1), u32_eq_nat _ (index + c + 2), hsome, hfile,
              h2', i32_of_range, if_pos, if_neg, if_true, if_false, eq_self_iff_true,
              Bool.false_eq_true]
          rw [hkd]
          exact ⟨on_match_line_intro l es _ _ pats dvs (index + c + 2) (hmod' _ (by omega))
            (by omega) (by omega) (by omega) (by omega) h2', by dsimp only; omega⟩
        · have hkd : key_down l ⟨index, c, pats, dvs⟩ es = ⟨index, c + 1 + 1, pats, dvs⟩ := by
            simp (disch := omega) only [key_down, page_down, entries_get_nb_entries,
              u32_eq_nat _ (index + c + 1), hsome, hfile,
              i32_of_range, if_pos, if_neg, if_true, if_false, eq_self_iff_true,
              Bool.false_eq_true]
          rw [hkd]
          exact ⟨on_match_line_intro l es _ _ pats dvs (index + c + 2) hmod (by omega)
            (by omega) (by omega) (by omega) h2', by dsimp only; omega⟩
    · have hfile0 : entries_is_file es (index + c + 1) = false := by
        cases h : entries_is_file es (index + c + 1)
        · rfl
        · exact absurd h hfile
      rw [if_neg hfile]
      by_cases hpage : c + 2 = l
      · have hkd : key_down l ⟨index, c, pats, dvs⟩ es = ⟨index + c + 1, 0, pats, dvs⟩ := by
          simp (disch := omega) only [key_down, page_down, entries_get_nb_entries,
            u32_eq_nat _ (index + c + 1), hsome, hfile0,
            i32_of_range, if_pos, if_neg, if_true, if_false, eq_self_iff_true,
            Bool.false_eq_true]
        rw [hkd]
        exact ⟨on_match_line_intro l es _ _ pats dvs (index + c + 1) (hmod' _ (by omega))
          (by omega) (by omega) (by omega) (by omega) hfile0, by dsimp only; omega⟩
      · have hkd : key_down l ⟨index, c, pats, dvs⟩ es = ⟨index, c + 1, pats, dvs⟩ := by
          simp (disch := omega) only [key_down, page_down, entries_get_nb_entries,
            u32_eq_nat _ (index + c + 1), hsome, hfile0,
            i32_of_range, if_pos, if_neg, if_true, if_false, eq_self_iff_true,
            Bool.false_eq_true]
        rw [hkd]
        exact ⟨on_match_line_intro l es _ _ pats dvs (index + c + 1) hmod (by omega)
          (by omega) (by omega) (by omega) hfile0, by dsimp only; omega⟩

theorem key_up_cases (LINES : Int) (es : List entry) (d : display)
    (hN : es.length < 4294967296) (hL : 3 ≤ LINES) (hL2 : LINES < 2147483648)
    (hfirst : entries_is_file es 0 = true)
    (hf : headers_followed es) (hs : on_match_line LINES es d) :
    on_match_line LINES es (key_up LINES d es) ∧
    ((key_up LINES d es).index : Int) + (key_up LINES d es).cursor =
      if entries_is_file es ((d.index + d.cursor).toNat - 1) then
        (if (d.index + d.cursor).toNat = 1 then (d.index : Int) + d.cursor
          else (d.index : Int) + d.cursor - 2)
      else (d.index : Int) + d.cursor - 1 := by
  obtain ⟨hmod, hc0, hc1, hpos, hline⟩ := hs
  obtain ⟨index, cursor, pats, dvs⟩ := d
  simp only at hmod hc0 hc1 hpos hline ⊢
  obtain ⟨c, rfl⟩ := Int.eq_ofNat_of_zero_le hc0
  obtain ⟨l, rfl⟩ : ∃ l : Nat, LINES = l := ⟨LINES.toNat, by omega⟩
  have hp : ((index : Int) + (c : Int)).toNat = index + c := by omega
  rw [hp] at hline ⊢
  have hpos1 : 1 ≤ index + c := by
    by_contra h
    have h0 : index + c = 0 := by omega
    rw [h0, hfirst] at hline
    exact absurd hline (by simp)
  have hge : index ≠ 0 → l - 1 ≤ index := by
    intro hne
    have := index_multiple index ((l : Int) - 1) hmod hne
    omega
  have hmod' : ∀ n : Nat, (n : Int) = (index : Int) - ((l : Int) - 1) →
      (n : Int) % ((l : Int) - 1) = 0 := by
    intro n hn
    rw [hn]
    exact index_sub_multiple _ _ hmod
  by_cases hprev : entries_is_file es (index + c - 1) = true
  · rw [if_pos hprev]
    have hprev2 : 2 ≤ index + c → entries_is_file es (index + c - 2) = false := by
      intro h2
      cases h : entries_is_file es (index + c - 2)
      · rfl
      · have := (headers_followed_at es hf _ h).2
        have e : index + c - 2 + 1 = index + c - 1 := by omega
        rw [e, hprev] at this
        exact absurd this (by simp)
    by_cases hone : index + c = 1
    · rw [if_pos hone]
      have hkd : key_up l ⟨index, c, pats, dvs⟩ es = ⟨index, 1, pats, dvs⟩ := by
        simp (disch := omega) only [key_up, page_up, u32_eq_nat _ (index + c - 1), hprev,
          i32_of_range, if_pos, if_neg, if_true, if_false, eq_self_iff_true,
          Bool.false_eq_true]
      rw [hkd]
      exact ⟨on_match_line_intro l es _ _ pats dvs (index + c) hmod (by omega)
        (by omega) (by omega) (by omega) hline, by dsimp only; omega⟩
    · rw [if_neg hone]
      have hp2 := hprev2 (by omega)
      by_cases hc : 2 ≤ c
      · have hkd : key_up l ⟨index, c, pats, dvs⟩ es = ⟨index, c - 1 - 1, pats, dvs⟩ := by
          simp (disch := omega) only [key_up, page_up, u32_eq_nat _ (index + c - 1), hprev,
            i32_of_range, if_pos, if_neg, if_true, if_false, eq_self_iff_true,
            Bool.false_eq_true]
        rw [hkd]
        exact ⟨on_match_line_intro l es _ _ pats dvs (index + c - 2) hmod (by omega)
          (by omega) (by omega) (by omega) hp2, by dsimp only; omega⟩
      · have hi := hge (by omega)
        by_cases hc1' : c = 1
        · have hfalse : entries_is_file es (index - 1) = false := by
            cases h : entries_is_file es (index - 1)
            · rfl
            · have := (headers_followed_at es hf _ h).2
              have e : index - 1 + 1 = index + c - 1 := by omega
              rw [e, hprev] at this
              exact absurd this (by simp)
          have hkd : key_up l ⟨index, c, pats, dvs⟩ es
              = ⟨index - (l - 1), (l : Int) - 1 - 1, pats, dvs⟩ := by
            simp (disch := omega) only [key_up, page_up, u32_eq_nat _ (index + c - 1),
              u32_eq_nat _ (index - (l - 1)), u32_eq_nat _ (index - 1), hprev, hfalse,
              i32_of_range, if_pos, if_neg, if_true, if_false, eq_self_iff_true,
              Bool.false_eq_true]
          rw [hkd]
          exact ⟨on_match_line_intro l es _ _ pats dvs (index - 1) (hmod' _ (by omega))
            (by omega) (by omega) (by omega) (by omega) hfalse, by dsimp only; omega⟩
        · have hprev' : entries_is_file es (index - 1) = true := by
            rw [← hprev]; congr 1; omega
          have hp2' : entries_is_file es (index - 2) = false := by
            rw [← hp2]; congr 1; omega
          have hkd : key_up l ⟨index, c, pats, dvs⟩ es
              = ⟨index - (l - 1), (l : Int) - 1 - 1 - 1, pats, dvs⟩ := by
            simp (disch := omega) only [key_up, page_up,
              u32_eq_nat _ (index - (l - 1)), u32_eq_nat _ (index - 1), hprev',
              i32_of_range, if_pos, if_neg, if_true, if_false, eq_self_iff_true,
              Bool.false_eq_true]
          rw [hkd]
          exact ⟨on_match_line_intro l es _ _ pats dvs (index - 2) (hmod' _ (by omega))
            (by omega) (by omega) (by omega) (by omega) hp2', by dsimp only; omega⟩
  · have hprev0 : entries_is_file es (index + c - 1) = false := by
      cases h : entries_is_file es (index + c - 1)
      · rfl
      · exact absurd h hprev
    rw [if_neg hprev]
    by_cases hc : 1 ≤ c
    · have hkd : key_up l ⟨index, c, pats, dvs⟩ es = ⟨index, c - 1, pats, dvs⟩ := by
        simp (disch := omega) only [key_up, page_up, u32_eq_nat _ (index + c - 1), hprev0,
          i32_of_range, if_pos, if_neg, if_true, if_false, eq_self_iff_true,
          Bool.false_eq_true]
      rw [hkd]
      exact ⟨on_match_line_intro l es _ _ pats dvs (index + c - 1) hmod (by omega)
        (by omega) (by omega) (by omega) hprev0, by dsimp only; omega⟩
    · have hi := hge (by omega)
      have hprev' : entries_is_file es (index - 1) = false := by
        rw [← hprev0]; congr 1; omega
      have hkd : key_up l ⟨index, c, pats, dvs⟩ es
          = ⟨index - (l - 1), (l : Int) - 1 - 1, pats, dvs⟩ := by
        simp (disch := omega) only [key_up, page_up,
          u32_eq_nat _ (index - (l - 1)), u32_eq_nat _ (index - 1), hprev',
          i32_of_range, if_pos, if_neg, if_true, if_false, eq_self_iff_true,
          Bool.false_eq_true]
      rw [hkd]
      exact ⟨on_match_line_intro l es _ _ pats dvs (index - 1) (hmod' _ (by omega))
        (by omega) (by omega) (by omega) (by omega) hprev', by dsimp only; omega⟩

/-! ## The claims on the line moves -/

/-- C3 (amended): for every entry store of a length that fits `uint32_t` which
begins with a file header and in which each file header is immediately followed
by a match line, every terminal height `LINES` (an `int`) with `LINES - 1 ≥ 2`,
and every view state whose cursor is on an existing match line (`index` a
multiple of `LINES - 1`, `0 ≤ cursor ≤ LINES - 2`), after any sequence of
`key_down` and `key_up` the cursor is again on an existing match line:
`index + cursor` is the index of an existing match-line entry and not the index
of a file header. -/
theorem line_moves_on_match_line (LINES : Int) (es : List entry) (d : display)
    (hN : es.length < 4294967296) (hL : 3 ≤ LINES) (hL2 : LINES < 2147483648)
    (hfirst : entries_is_file es 0 = true) (hf : headers_followed es)
    (hs : on_match_line LINES es d) (moves : List line_move) :
    on_match_line LINES es (line_moves LINES es d moves) := by
  unfold line_moves
  induction moves generalizing d with
  | nil => exact hs
  | cons m ms ih =>
    rw [List.foldl_cons]
    apply ih
    cases m with
    | down => exact (key_down_cases LINES es d hN hL hL2 hf hs).1
    | up => exact (key_up_cases LINES es d hN hL hL2 hfirst hf hs).1

/-- Witness of C3 (amended): two files with one match each, three rows, the
moves down, down, up from the first match line. -/
theorem line_moves_on_match_line_witness :
    (two_files.length < 4294967296 ∧ (3 : Int) ≤ 3 ∧ (3 : Int) < 2147483648 ∧
      entries_is_file two_files 0 = true ∧ headers_followed two_files ∧
      on_match_line 3 two_files ⟨0, 1, [], 3⟩) ∧
    on_match_line 3 two_files
      (line_moves 3 two_files ⟨0, 1, [], 3⟩ [line_move.down, line_move.down, line_move.up]) :=
  ⟨⟨by decide, by decide, by decide, by decide, by decide, by decide⟩,
    line_moves_on_match_line 3 two_files ⟨0, 1, [], 3⟩ (by decide) (by decide) (by decide)
      (by decide) (by decide) (by decide) [line_move.down, line_move.down, line_move.up]⟩

/-- C3 as stated fails on a store that does not begin with a file header: the
store of the single match line `a`, three rows, the cursor on that line at
`index = 0`, `cursor = 0`.  Every header of the store is followed by a match
line (there is none), and `key_up` sets the cursor to row 1, so that
`index + cursor = 1` is not the index of an entry. -/
theorem line_moves_counterexample :
    headers_followed [⟨1, [97], false⟩] ∧
    on_match_line 3 [⟨1, [97], false⟩] ⟨0, 0, [], 3⟩ ∧
    line_moves 3 [⟨1, [97], false⟩] ⟨0, 0, [], 3⟩ [line_move.up] = ⟨0, 1, [], 3⟩ ∧
    ¬ on_match_line 3 [⟨1, [97], false⟩]
        (line_moves 3 [⟨1, [97], false⟩] ⟨0, 0, [], 3⟩ [line_move.up]) := by
  refine ⟨by decide, by decide, by decide, by decide⟩

/-- C4 (amended): for every entry store of a length that fits `uint32_t` which
begins with a file header and in which each file header is immediately followed
by a match line, every terminal height with `LINES - 1 ≥ 2` and every view state
whose cursor is on an existing match line, one `key_down` leaves `index + cursor`
unchanged when the cursor is on the last entry, and otherwise adds 1 to it, or
2 when the next entry is a file header, which is skipped; one `key_up` subtracts
1 from it, or 2 when the previous entry is a file header, which is skipped, and
leaves it unchanged when that header is the first entry of the store. -/
theorem line_step_position (LINES : Int) (es : List entry) (d : display)
    (hN : es.length < 4294967296) (hL : 3 ≤ LINES) (hL2 : LINES < 2147483648)
    (hfirst : entries_is_file es 0 = true) (hf : headers_followed es)
    (hs : on_match_line LINES es d) :
    (((key_down LINES d es).index : Int) + (key_down LINES d es).cursor =
      if es.length ≤ (d.index + d.cursor).toNat + 1 then (d.index : Int) + d.cursor
      else if entries_is_file es ((d.index + d.cursor).toNat + 1) then
        (d.index : Int) + d.cursor + 2
      else (d.index : Int) + d.cursor + 1) ∧
    (((key_up LINES d es).index : Int) + (key_up LINES d es).cursor =
      if entries_is_file es ((d.index + d.cursor).toNat - 1) then
        (if (d.index + d.cursor).toNat = 1 then (d.index : Int) + d.cursor
          else (d.index : Int) + d.cursor - 2)
      else (d.index : Int) + d.cursor - 1) :=
  ⟨(key_down_cases LINES es d hN hL hL2 hf hs).2,
    (key_up_cases LINES es d hN hL hL2 hfirst hf hs).2⟩

/-- Witness of C4 (amended): two files with one match each, eleven rows, the
cursor on the first match line. -/
theorem line_step_position_witness :
    (two_files.length < 4294967296 ∧ (3 : Int) ≤ 11 ∧ (11 : Int) < 2147483648 ∧
      entries_is_file two_files 0 = true ∧ headers_followed two_files ∧
      on_match_line 11 two_files ⟨0, 1, [], 11⟩) ∧
    ((((key_down 11 ⟨0, 1, [], 11⟩ two_files).index : Int)
        + (key_down 11 ⟨0, 1, [], 11⟩ two_files).cursor =
      if two_files.length
          ≤ (((⟨0, 1, [], 11⟩ : display).index : Int) + (⟨0, 1, [], 11⟩ : display).cursor).toNat + 1
      then ((⟨0, 1, [], 11⟩ : display).index : Int) + (⟨0, 1, [], 11⟩ : display).cursor
      else if entries_is_file two_files
          ((((⟨0, 1, [], 11⟩ : display).index : Int) + (⟨0, 1, [], 11⟩ : display).cursor).toNat + 1)
      then ((⟨0, 1, [], 11⟩ : display).index : Int) + (⟨0, 1, [], 11⟩ : display).cursor + 2
      else ((⟨0, 1, [], 11⟩ : display).index : Int) + (⟨0, 1, [], 11⟩ : display).cursor + 1) ∧
    (((key_up 11 ⟨0, 1, [], 11⟩ two_files).index : Int)
        + (key_up 11 ⟨0, 1, [], 11⟩ two_files).cursor =
      if entries_is_file two_files
          ((((⟨0, 1, [], 11⟩ : display).index : Int) + (⟨0, 1, [], 11⟩ : display).cursor).toNat - 1)
      then
        (if (((⟨0, 1, [], 11⟩ : display).index : Int) + (⟨0, 1, [], 11⟩ : display).cursor).toNat = 1
          then ((⟨0, 1, [], 11⟩ : display).index : Int) + (⟨0, 1, [], 11⟩ : display).cursor
          else ((⟨0, 1, [], 11⟩ : display).index : Int) + (⟨0, 1, [], 11⟩ : display).cursor - 2)
      else ((⟨0, 1, [], 11⟩ : display).index : Int) + (⟨0, 1, [], 11⟩ : display).cursor - 1)) :=
  ⟨⟨by decide, by decide, by decide, by decide, by decide, by decide⟩,
    line_step_position 11 two_files ⟨0, 1, [], 11⟩ (by decide) (by decide) (by decide)
      (by decide) (by decide) (by decide)⟩

/-- C4 as stated fails.  With the store header, line, header, line and eleven
rows, `key_down` from `index + cursor = 1` skips the header at 2 and lands on 3:
a change of 2 though the move is not clamped.  On a store without a leading
header (two match lines), `key_up` from `index + cursor = 0` moves to 1.  On a
store with two headers in a row, `key_down` from 1 skips both and lands on 4. -/
theorem line_step_counterexample :
    (key_down 11 ⟨0, 1, [], 11⟩ two_files = ⟨0, 3, [], 11⟩) ∧
    (key_up 11 ⟨0, 0, [], 11⟩ [⟨1, [97], false⟩, ⟨2, [97], false⟩] = ⟨0, 1, [], 11⟩) ∧
    (key_down 4 ⟨0, 1, [], 4⟩
        [⟨0, [120], false⟩, ⟨1, [97], false⟩, ⟨0, [121], false⟩, ⟨0, [122], false⟩,
          ⟨7, [97], false⟩]
      = ⟨3, 1, [], 4⟩) := by
  refine ⟨by decide, by decide, by decide⟩

/-! ## The claims on resize, end and the status bar -/

theorem key_resize_values (LINES : Int) (d : display)
    (h1 : 1 < LINES) (h2 : LINES < 2147483648) :
    current_position (key_resize LINES d) = current_position d ∧
    ((key_resize LINES d).index : Int) + (key_resize LINES d).cursor = current_position d ∧
    (0 ≤ (d.index : Int) + d.cursor → (d.index : Int) + d.cursor < 4294967296 →
      ((key_resize LINES d).index : Int) + (key_resize LINES d).cursor
        = (d.index : Int) + d.cursor) ∧
    0 ≤ (key_resize LINES d).cursor ∧ (key_resize LINES d).cursor < LINES - 1 := by
  obtain ⟨index, cursor, pats, dvs⟩ := d
  obtain ⟨l, rfl⟩ : ∃ l : Nat, LINES = l := ⟨LINES.toNat, by omega⟩
  have hm : u32 ((l : Int) - 1) = l - 1 := by unfold u32; omega
  have hP : u32 ((index : Int) + cursor) < 4294967296 := by unfold u32; omega
  have hlt : u32 ((index : Int) + cursor) % (l - 1) < l - 1 := Nat.mod_lt _ (by omega)
  have hle : u32 ((index : Int) + cursor) % (l - 1) ≤ u32 ((index : Int) + cursor) :=
    Nat.mod_le _ _
  simp only [key_resize, current_position, hm]
  generalize u32 ((index : Int) + cursor) % (l - 1) = cur at hlt hle
  have hcur : i32 (cur : Int) = cur := i32_of_range _ (by omega) (by omega)
  rw [hcur]
  have hidx : u32 ((u32 ((index : Int) + cursor) : Int) - (cur : Int))
      = u32 ((index : Int) + cursor) - cur := by
    apply u32_eq_nat
    · omega
    · omega
  rw [hidx]
  have hsum : ((u32 ((index : Int) + cursor) - cur : Nat) : Int) + (cur : Int)
      = u32 ((index : Int) + cursor) := by omega
  refine ⟨?_, hsum, ?_, by omega, by omega⟩
  · rw [hsum]
    apply u32_eq_nat
    · rfl
    · exact hP
  · intro h0 h32
    rw [hsum]
    unfold u32
    omega

/-- C5 (amended): for every view state before the resize and every new terminal
height `LINES > 1` (an `int`), the `KEY_RESIZE` case of `display_loop` gives a
cursor with `0 ≤ cursor < LINES - 1` and an `index + cursor` that is the
`uint32_t` value of the `index + cursor` of before, the value by which
`display.c` addresses the entry under the cursor: `index + cursor` is the same
after as before in every state in which it is between 0 and 2^32 - 1. -/
theorem key_resize_preserves (LINES : Int) (d : display)
    (h1 : 1 < LINES) (h2 : LINES < 2147483648) :
    current_position (key_resize LINES d) = current_position d ∧
    ((key_resize LINES d).index : Int) + (key_resize LINES d).cursor = current_position d ∧
    (0 ≤ (d.index : Int) + d.cursor → (d.index : Int) + d.cursor < 4294967296 →
      ((key_resize LINES d).index : Int) + (key_resize LINES d).cursor
        = (d.index : Int) + d.cursor) ∧
    0 ≤ (key_resize LINES d).cursor ∧ (key_resize LINES d).cursor < LINES - 1 :=
  key_resize_values LINES d h1 h2

/-- Witness of C5 (amended): the state `index = 6`, `cursor = 2` resized to five
rows. -/
theorem key_resize_preserves_witness :
    ((1 : Int) < 5 ∧ (5 : Int) < 2147483648) ∧
    (current_position (key_resize 5 ⟨6, 2, [], 4⟩) = current_position ⟨6, 2, [], 4⟩ ∧
    ((key_resize 5 ⟨6, 2, [], 4⟩).index : Int) + (key_resize 5 ⟨6, 2, [], 4⟩).cursor
      = current_position ⟨6, 2, [], 4⟩ ∧
    (0 ≤ ((⟨6, 2, [], 4⟩ : display).index : Int) + (⟨6, 2, [], 4⟩ : display).cursor →
      ((⟨6, 2, [], 4⟩ : display).index : Int) + (⟨6, 2, [], 4⟩ : display).cursor < 4294967296 →
      ((key_resize 5 ⟨6, 2, [], 4⟩).index : Int) + (key_resize 5 ⟨6, 2, [], 4⟩).cursor
        = ((⟨6, 2, [], 4⟩ : display).index : Int) + (⟨6, 2, [], 4⟩ : display).cursor) ∧
    0 ≤ (key_resize 5 ⟨6, 2, [], 4⟩).cursor ∧ (key_resize 5 ⟨6, 2, [], 4⟩).cursor < 5 - 1) :=
  ⟨⟨by decide, by decide⟩, key_resize_preserves 5 ⟨6, 2, [], 4⟩ (by decide) (by decide)⟩

/-- C5 as stated fails in the view state `index = 0`, `cursor = -1`, the state
the End key gives on an empty store (here with four rows): a resize to five rows
gives `index = 4294967292` and `cursor = 3`, whose sum 4294967295 is not the sum
-1 of before, `index + cursor` being taken as a `uint32_t`. -/
theorem key_resize_negative_position :
    goto_end 4 ⟨0, 0, [], 4⟩ [] = ⟨0, -1, [], 4⟩ ∧
    key_resize 5 ⟨0, -1, [], 4⟩ = ⟨4294967292, 3, [], 5⟩ ∧
    ((key_resize 5 ⟨0, -1, [], 4⟩).index : Int) + (key_resize 5 ⟨0, -1, [], 4⟩).cursor
      ≠ ((⟨0, -1, [], 4⟩ : display).index : Int) + (⟨0, -1, [], 4⟩ : display).cursor := by
  decide

theorem goto_end_values (LINES : Int) (d : display) (es : List entry)
    (hN : es.length < 4294967296) (h1 : 1 ≤ LINES - 1) (h2 : LINES < 2147483648) :
    (goto_end LINES d es).index = es.length / (LINES - 1).toNat * (LINES - 1).toNat ∧
    (goto_end LINES d es).cursor = ((es.length % (LINES - 1).toNat : Nat) : Int) - 1 ∧
    ((goto_end LINES d es).index : Int) + (goto_end LINES d es).cursor
      = (es.length : Int) - 1 := by
  obtain ⟨l, rfl⟩ : ∃ l : Nat, LINES = l := ⟨LINES.toNat, by omega⟩
  have hm : u32 ((l : Int) - 1) = l - 1 := by unfold u32; omega
  have hr : ((l : Int) - 1).toNat = l - 1 := by omega
  have hlt : es.length % (l - 1) < l - 1 := Nat.mod_lt _ (by omega)
  have hle : es.length / (l - 1) * (l - 1) ≤ es.length := Nat.div_mul_le_self _ _
  have hdm : es.length / (l - 1) * (l - 1) + es.length % (l - 1) = es.length := by
    rw [Nat.mul_comm]
    exact Nat.div_add_mod _ _
  simp only [goto_end, entries_get_nb_entries, hm, hr]
  generalize es.length / (l - 1) = q at hle hdm
  have hq : ((q : Int) * ((l - 1 : Nat) : Int)) = ((q * (l - 1) : Nat) : Int) := by
    push_cast
    rfl
  rw [hq]
  generalize q * (l - 1) = qr at hle hdm
  generalize es.length % (l - 1) = m at hlt hdm
  have hidx : u32 (qr : Int) = qr := u32_eq_nat _ _ rfl (by omega)
  have hcur : i32 ((u32 ((m : Int) - 1) : Nat) : Int) = (m : Int) - 1 := by
    unfold i32 u32
    omega
  rw [hidx, hcur]
  refine ⟨rfl, rfl, by omega⟩

/-- C6: for every entry count `N` (a `uint32_t`) and every terminal height `LINES`
(an `int`) with `LINES - 1 ≥ 1`, `goto_end` sets `index` to
`⌊N / (LINES - 1)⌋ · (LINES - 1)` and `cursor` to `N mod (LINES - 1) - 1`, so that
`index + cursor = N - 1`, the index of the last entry. -/
theorem goto_end_last_entry (LINES : Int) (d : display) (es : List entry)
    (hN : es.length < 4294967296) (h1 : 1 ≤ LINES - 1) (h2 : LINES < 2147483648) :
    (goto_end LINES d es).index = es.length / (LINES - 1).toNat * (LINES - 1).toNat ∧
    (goto_end LINES d es).cursor = ((es.length % (LINES - 1).toNat : Nat) : Int) - 1 ∧
    ((goto_end LINES d es).index : Int) + (goto_end LINES d es).cursor
      = (es.length : Int) - 1 :=
  goto_end_values LINES d es hN h1 h2

/-- Witness of C6: ten entries on a terminal of five rows. -/
theorem goto_end_last_entry_witness :
    ((List.replicate 10 (⟨1, [97], false⟩ : entry)).length < 4294967296 ∧
      (1 : Int) ≤ 5 - 1 ∧ (5 : Int) < 2147483648) ∧
    ((goto_end 5 ⟨0, 1, [], 5⟩ (List.replicate 10 ⟨1, [97], false⟩)).index
      = (List.replicate 10 (⟨1, [97], false⟩ : entry)).length / ((5 : Int) - 1).toNat
          * ((5 : Int) - 1).toNat ∧
    (goto_end 5 ⟨0, 1, [], 5⟩ (List.replicate 10 ⟨1, [97], false⟩)).cursor
      = (((List.replicate 10 (⟨1, [97], false⟩ : entry)).length % ((5 : Int) - 1).toNat : Nat)
          : Int) - 1 ∧
    ((goto_end 5 ⟨0, 1, [], 5⟩ (List.replicate 10 ⟨1, [97], false⟩)).index : Int)
        + (goto_end 5 ⟨0, 1, [], 5⟩ (List.replicate 10 ⟨1, [97], false⟩)).cursor
      = ((List.replicate 10 (⟨1, [97], false⟩ : entry)).length : Int) - 1) :=
  ⟨⟨by decide, by decide, by decide⟩,
    goto_end_last_entry 5 ⟨0, 1, [], 5⟩ (List.replicate 10 ⟨1, [97], false⟩)
      (by decide) (by decide) (by decide)⟩

theorem display_bar_eq (d : display) (es : List entry) :
    display_bar d es =
      if es.length ≠ 0 then
        i32 ((u32 (100 * ((d.index : Int) + d.cursor + 1)) / es.length : Nat))
      else 0 := rfl

/-- As long as `100 · (index + cursor + 1)` fits `uint32_t`, the percentage of
`display_bar` is the integer quotient `100 · (index + cursor + 1) / N`, and it is
0 when there is no entry. -/
theorem display_bar_in_range (d : display) (es : List entry) (pos : Nat)
    (hpos : (d.index : Int) + d.cursor + 1 = pos) (hfit : 100 * pos < 4294967296)
    (hN : 1 < es.length) :
    display_bar d es = ((100 * pos / es.length : Nat) : Int) ∧ display_bar d [] = 0 := by
  constructor
  · rw [display_bar_eq, if_pos (by omega)]
    have h100 : u32 (100 * ((d.index : Int) + d.cursor + 1)) = 100 * pos :=
      u32_eq_nat _ _ (by omega) hfit
    rw [h100]
    have hle : 100 * pos / es.length ≤ 100 * pos / 2 := Nat.div_le_div_left hN (by decide)
    generalize 100 * pos / es.length = q at hle
    apply i32_of_range
    · omega
    · omega
  · rfl

/-- C7 at its failing input: a store of 42949673 entries (a file header and
42949672 match lines), nine rows, the cursor on the last entry
(`index = 42949672`, `cursor = 0`).  The product
`100 · (index + cursor + 1) = 4294967300` wraps to 4 in `uint32_t`, and
`display_bar` computes 0 percent where the quotient
`100 · (index + cursor + 1) / N` is 100.  With ten entries, `index = 0` and
`cursor = 4` it computes 50. -/
theorem display_bar_percent_wraps :
    display_bar ⟨42949672, 0, [], 9⟩
        (⟨0, [120], false⟩ :: List.replicate 42949672 ⟨1, [97], false⟩) = 0 ∧
    100 * (42949672 + 0 + 1) / 42949673 = 100 ∧
    display_bar ⟨0, 4, [], 11⟩ (⟨0, [120], false⟩ :: List.replicate 9 ⟨1, [97], false⟩) = 50 := by
  refine ⟨?_, by decide, ?_⟩
  · rw [display_bar_eq, List.length_cons, List.length_replicate]
    decide
  · rw [display_bar_eq, List.length_cons, List.length_replicate]
    decide

/-! ## The claim on the highlighting of plain-text patterns -/

theorem strstr_some (hay needle : List Nat) (k : Nat) (h : strstr hay needle = some k) :
    needle <+: hay.drop k ∧ ∀ j, j < k → ¬ needle <+: hay.drop j := by
  induction hay generalizing k with
  | nil =>
    rw [strstr] at h
    by_cases hs : starts_with [] needle = true
    · rw [if_pos hs] at h
      cases h
      exact ⟨(starts_with_iff [] needle).mp hs, fun j hj => absurd hj (Nat.not_lt_zero j)⟩
    · rw [if_neg hs] at h
      exact absurd h (by simp)
  | cons b hay ih =>
    rw [strstr] at h
    by_cases hs : starts_with (b :: hay) needle = true
    · rw [if_pos hs] at h
      cases h
      exact ⟨(starts_with_iff _ needle).mp hs, fun j hj => absurd hj (Nat.not_lt_zero j)⟩
    · rw [if_neg hs, Option.map_eq_some'] at h
      obtain ⟨k', hk', rfl⟩ := h
      obtain ⟨h1, h2⟩ := ih k' hk'
      refine ⟨by simpa using h1, ?_⟩
      intro j hj
      cases j with
      | zero => exact fun hc => hs ((starts_with_iff _ needle).mpr hc)
      | succ j => simpa using h2 j (by omega)

theorem strstr_none (hay needle : List Nat) (h : strstr hay needle = none) :
    ∀ j, ¬ needle <+: hay.drop j := by
  induction hay with
  | nil =>
    rw [strstr] at h
    by_cases hs : starts_with [] needle = true
    · rw [if_pos hs] at h
      exact absurd h (by simp)
    · intro j hc
      rw [List.drop_nil] at hc
      exact hs ((starts_with_iff [] needle).mpr hc)
  | cons b hay ih =>
    rw [strstr] at h
    by_cases hs : starts_with (b :: hay) needle = true
    · rw [if_pos hs] at h
      exact absurd h (by simp)
    · rw [if_neg hs, Option.map_eq_none'] at h
      intro j
      cases j with
      | zero => exact fun hc => hs ((starts_with_iff _ needle).mpr hc)
      | succ j => simpa using ih h j

theorem occurs_at_lt (line pattern : List Nat) (hpat : pattern ≠ []) (i : Nat)
    (h : occurs_at line pattern i) : i + pattern.length ≤ line.length := by
  have hlen := h.length_le
  rw [List.length_drop] at hlen
  have hpos : 0 < pattern.length := List.length_pos.mpr hpat
  omega

theorem highlighted_append (a b : List draw) :
    highlighted (a ++ b) = highlighted a ++ highlighted b := by
  simp [highlighted]

theorem highlighted_addch (ptr k : Nat) (line : List Nat) (pair : colors)
    (hpair : pair ≠ colors.red) :
    highlighted ((List.range k).map
      (fun i => (⟨ptr + i, [line.getD (ptr + i) 0], pair⟩ : draw))) = [] := by
  simp [highlighted, List.filter_eq_nil_iff, hpair]

theorem colorize_loop_spans (COLS : Int) (line pattern : List Nat) (visited : Bool)
    (hpat : pattern ≠ []) (hfit : (line.length : Int) ≤ COLS) :
    ∀ (fuel ptr : Nat) (pair : colors) (out : List draw),
      line.length < ptr + fuel → ptr ≤ line.length → pair ≠ colors.red →
      ∃ out' spans, colorize_loop strstr COLS line pattern visited fuel ptr pair out = some out' ∧
        highlighted out' = highlighted out ++ spans ∧ leftmost_spans line pattern ptr spans := by
  intro fuel
  induction fuel with
  | zero => intro ptr pair out h1 h2; omega
  | succ fuel ih =>
    intro ptr pair out hfuel hptr hpair
    cases hk : strstr (line.drop ptr) pattern with
    | none =>
      refine ⟨out, [], by simp [colorize_loop, hk], by simp, ?_⟩
      intro i _ hi hc
      have := strstr_none _ _ hk (i - ptr)
      rw [List.drop_drop] at this
      have e : ptr + (i - ptr) = i := by omega
      rw [e] at this
      exact this hc
    | some k =>
      obtain ⟨hocc, hmin⟩ := strstr_some _ _ _ hk
      rw [List.drop_drop] at hocc
      have hocc' : occurs_at line pattern (ptr + k) := hocc
      have hend := occurs_at_lt line pattern hpat _ hocc'
      have hpos : 0 < pattern.length := List.length_pos.mpr hpat
      have hcols : ¬ (((ptr + k : Nat) : Int) > COLS) := by omega
      have hpair' : (if visited then colors.magenta else colors.normal) ≠ colors.red := by
        cases visited <;> simp
      obtain ⟨out', spans, h1, h2, h3⟩ := ih (ptr + k + pattern.length)
        (if visited then colors.magenta else colors.normal)
        (out ++ (List.range k).map
            (fun i => (⟨ptr + i, [line.getD (ptr + i) 0], pair⟩ : draw))
          ++ [⟨ptr + k, pattern, colors.red⟩])
        (by omega) hend hpair'
      refine ⟨out', (ptr + k, ptr + k + pattern.length) :: spans, ?_, ?_, ?_⟩
      · simp only [colorize_loop, hk, hcols, if_false]
        exact h1
      · rw [h2, highlighted_append, highlighted_append, highlighted_addch _ _ _ _ hpair]
        simp [highlighted]
      · refine ⟨by omega, hocc', ?_, rfl, h3⟩
        intro i hi1 hi2 hc
        have := hmin (i - ptr) (by omega)
        rw [List.drop_drop] at this
        have e : ptr + (i - ptr) = i := by omega
        rw [e] at this
        exact this hc

theorem leftmost_spans_unique (line pattern : List Nat) (hpat : pattern ≠ []) :
    ∀ (a b : List (Nat × Nat)) (start : Nat),
      leftmost_spans line pattern start a → leftmost_spans line pattern start b → a = b := by
  intro a
  induction a with
  | nil =>
    intro b start ha hb
    cases b with
    | nil => rfl
    | cons x rest =>
      obtain ⟨s, e⟩ := x
      obtain ⟨h1, h2, _, _, _⟩ := hb
      have := occurs_at_lt line pattern hpat s h2
      exact absurd h2 (ha s (by omega) h1)
  | cons x rest ih =>
    intro b start ha hb
    obtain ⟨s, e⟩ := x
    obtain ⟨a1, a2, a3, a4, a5⟩ := ha
    cases b with
    | nil =>
      have := occurs_at_lt line pattern hpat s a2
      exact absurd a2 (hb s (by omega) a1)
    | cons y rest' =>
      obtain ⟨s', e'⟩ := y
      obtain ⟨b1, b2, b3, b4, b5⟩ := hb
      have hs : s = s' := by
        rcases Nat.lt_trichotomy s s' with h | h | h
        · exact absurd a2 (b3 s h a1)
        · exact h
        · exact absurd b2 (a3 s' h b1)
      subst hs
      have he : e = e' := by rw [a4, b4]
      subst he
      rw [ih rest' e a5 b5]

/-- C8: for every line that fits the viewport width and every non-empty
plain-text pattern matched case-sensitively (`strstr` is the search function),
`colorize_normal_patterns` terminates, and the spans it draws in the
match-highlight pair are exactly the leftmost non-overlapping occurrences of the
pattern in the line, found by scanning left to right and resuming after the end
of each occurrence: a list of spans is that list of occurrences if and only if
it is the list of the highlighted spans. -/
theorem colorize_normal_patterns_spans (COLS : Int) (line_contents pattern : List Nat)
    (visited : Bool) (hpat : cstr pattern ≠ [])
    (hfit : ((cstr line_contents).length : Int) ≤ COLS) :
    ∃ out, colorize_normal_patterns false COLS line_contents pattern visited = some out ∧
      ∀ spans, leftmost_spans (cstr line_contents) (cstr pattern) 0 spans
        ↔ spans = highlighted out := by
  have hpair : (if visited then colors.magenta else colors.normal) ≠ colors.red := by
    cases visited <;> simp
  obtain ⟨out, spans, h1, h2, h3⟩ := colorize_loop_spans COLS (cstr line_contents)
    (cstr pattern) visited hpat hfit ((cstr line_contents).length + 1) 0
    (if visited then colors.magenta else colors.normal) [] (by omega) (by omega) hpair
  refine ⟨out, ?_, ?_⟩
  · simpa [colorize_normal_patterns] using h1
  · have h2' : highlighted out = spans := by simpa [highlighted] using h2
    intro sp
    constructor
    · intro hsp
      rw [h2']
      exact leftmost_spans_unique _ _ hpat sp spans 0 hsp h3
    · intro hsp
      rw [hsp, h2']
      exact h3

/-- Witness of C8: the line `foofoobar` and the pattern `foo` on 80 columns; the
highlighted spans are `[0,3)` and `[3,6)`. -/
theorem colorize_normal_patterns_spans_witness :
    (cstr [102, 111, 111] ≠ [] ∧
      ((cstr [102, 111, 111, 102, 111, 111, 98, 97, 114]).length : Int) ≤ 80) ∧
    (∃ out, colorize_normal_patterns false 80 [102, 111, 111, 102, 111, 111, 98, 97, 114]
        [102, 111, 111] false = some out ∧
      ∀ spans, leftmost_spans (cstr [102, 111, 111, 102, 111, 111, 98, 97, 114])
          (cstr [102, 111, 111]) 0 spans ↔ spans = highlighted out) ∧
    (colorize_normal_patterns false 80 [102, 111, 111, 102, 111, 111, 98, 97, 114]
        [102, 111, 111] false).map highlighted = some [(0, 3), (3, 6)] :=
  ⟨⟨by decide, by decide⟩,
    colorize_normal_patterns_spans 80 [102, 111, 111, 102, 111, 111, 98, 97, 114]
      [102, 111, 111] false (by decide) (by decide),
    by decide⟩

/-! ## The claim on the refine prompt -/

theorem set_typed (a : Nat) (j m : Nat) :
    (List.replicate j a ++ List.replicate (m + 1) 0).set j a
      = List.replicate (j + 1) a ++ List.replicate m 0 := by
  induction j with
  | zero => rfl
  | succ j ih =>
    rw [List.replicate_succ, List.cons_append, List.set_cons_succ, ih]
    rfl

theorem subsearch_loop_typed (rest : List Int) :
    ∀ (n j m : Nat) (writes : List Nat), j + n ≤ 4096 →
      subsearch_loop (List.replicate n 97 ++ rest) j
          (List.replicate j 97 ++ List.replicate (n + m) 0) writes
        = subsearch_loop rest (j + n) (List.replicate (j + n) 97 ++ List.replicate m 0)
            (writes ++ List.range' j n) := by
  intro n
  induction n with
  | zero =>
    intro j m writes _
    rw [List.replicate_zero, List.nil_append, Nat.zero_add, Nat.add_zero, List.range'_zero,
      List.append_nil]
  | succ n ih =>
    intro j m writes hj
    have hc : (97 : Int) ≠ 10 ∧ j < 4096 := ⟨by decide, by omega⟩
    have h8 : ¬ ((97 : Int) = 8 ∨ (97 : Int) = 127) := by decide
    have h27 : ¬ (97 : Int) = 27 := by decide
    have hbyte : ((97 : Int) % 256).toNat = 97 := by decide
    have hbuf : List.replicate j 97 ++ List.replicate (n + 1 + m) 0
        = List.replicate j 97 ++ List.replicate (n + m + 1) 0 := by
      rw [Nat.add_right_comm]
    rw [List.replicate_succ, List.cons_append, subsearch_loop, if_pos hc, if_neg h8, if_neg h27,
      hbyte, hbuf, set_typed, ih (j + 1) m (writes ++ [j]) (by omega), List.range'_succ,
      List.append_assoc, List.singleton_append, Nat.add_right_comm j 1 n, Nat.add_assoc j n 1]

theorem subsearch_window_full (n : Nat) (hn : n = 4096) (b : Int) :
    subsearch_window false (List.replicate n 97 ++ [b])
      = some ⟨b, n, List.range' 0 n ++ [n], some (List.replicate n 97)⟩ := by
  have hrun := subsearch_loop_typed [b] n 0 0 [] (by omega)
  rw [List.replicate_zero, List.nil_append, Nat.zero_add, Nat.add_zero, List.nil_append,
    List.replicate_zero, List.append_nil] at hrun
  have hstart : subsearch_window false (List.replicate n 97 ++ [b])
      = subsearch_loop (List.replicate n 97 ++ [b]) 0 (List.replicate n 0) [] := by
    unfold subsearch_window
    rw [hn]
  rw [hstart, hrun, subsearch_loop]
  have hc : ¬ (b ≠ 10 ∧ n < 4096) := by omega
  have hj : ¬ n ≤ 0 := by omega
  have hset : (List.replicate n 97).set n 0 = List.replicate n 97 := by
    apply List.set_eq_of_length_le
    rw [List.length_replicate]
  have hstr : cstr (List.replicate n 97) = List.replicate n 97 := by
    apply cstr_of_no_nul
    intro h
    exact absurd (List.eq_of_mem_replicate h) (by decide)
  rw [if_neg hc]
  dsimp only
  rw [if_neg hj, hset, hstr]

theorem entries_get_data_isNone_eq (es : List entry) (i : Nat) :
    (entries_get_data es i).isNone = decide (es.length ≤ i) := by
  by_cases h : es.length ≤ i
  · rw [(entries_get_data_isNone es i).mpr h]
    simp [h]
  · cases hn : (entries_get_data es i).isNone
    · simp [h]
    · exact absurd ((entries_get_data_isNone es i).mp hn) h

theorem entries_is_file_guard (es : List entry)
    (hlast : entries_is_file es (es.length - 1) = false) :
    ∃ g : Nat → Bool, ∀ i, entries_is_file es i = (decide (i + 1 < es.length) && g i) := by
  refine ⟨entries_is_file es, fun i => ?_⟩
  cases h : entries_is_file es i
  · simp
  · have hlt := entries_is_file_lt es i h
    have hne : i ≠ es.length - 1 := by
      intro hc
      rw [hc, hlast] at h
      exact absurd h (by simp)
    have : i + 1 < es.length := by omega
    simp [this]

theorem index_zero_or_page (index l : Nat) (hL : 3 ≤ l)
    (hmod : (index : Int) % ((l : Int) - 1) = 0) : index = 0 ∨ l - 1 ≤ index := by
  by_cases h : index = 0
  · exact Or.inl h
  · right
    have := index_multiple index ((l : Int) - 1) hmod h
    omega

theorem key_down_in_view (l : Nat) (es : List entry) (d : display)
    (hN : es.length < 4294967296) (hN2 : 2 ≤ es.length)
    (hL : 3 ≤ l) (hL2 : l < 2147483648)
    (hlast : entries_is_file es (es.length - 1) = false)
    (hmod : (d.index : Int) % ((l : Int) - 1) = 0) (hs : cursor_in_view l es d) :
    cursor_in_view l es (key_down l d es) := by
  obtain ⟨g, hg⟩ := entries_is_file_guard es hlast
  obtain ⟨hc0, hc1, hpos⟩ := hs
  obtain ⟨index, cursor, pats, dvs⟩ := d
  simp only at hmod hc0 hc1 hpos
  have hge := index_zero_or_page index l hL hmod
  clear hmod hlast
  simp only [key_down, page_down, entries_get_nb_entries, entries_get_data_isNone_eq, hg,
    cursor_in_view, Bool.and_eq_true, decide_eq_true_eq]
  clear hg
  split_ifs
  all_goals
    try dsimp only at *
    try simp only [u32, i32] at *
    omega

theorem key_up_in_view (l : Nat) (es : List entry) (d : display)
    (hN : es.length < 4294967296) (hN2 : 2 ≤ es.length)
    (hL : 3 ≤ l) (hL2 : l < 2147483648)
    (hlast : entries_is_file es (es.length - 1) = false)
    (hmod : (d.index : Int) % ((l : Int) - 1) = 0) (hs : cursor_in_view l es d) :
    cursor_in_view l es (key_up l d es) := by
  obtain ⟨g, hg⟩ := entries_is_file_guard es hlast
  obtain ⟨hc0, hc1, hpos⟩ := hs
  obtain ⟨index, cursor, pats, dvs⟩ := d
  simp only at hmod hc0 hc1 hpos
  have hge := index_zero_or_page index l hL hmod
  clear hmod hlast
  simp only [key_up, page_up, entries_get_nb_entries, entries_get_data_isNone_eq, hg,
    cursor_in_view, Bool.and_eq_true, decide_eq_true_eq]
  clear hg
  split_ifs
  all_goals
    try dsimp only at *
    try simp only [u32, i32] at *
    omega

theorem page_down_in_view (l : Nat) (es : List entry) (d : display)
    (hN : es.length < 4294967296) (hN2 : 2 ≤ es.length)
    (hL : 3 ≤ l) (hL2 : l < 2147483648)
    (hlast : entries_is_file es (es.length - 1) = false)
    (hmod : (d.index : Int) % ((l : Int) - 1) = 0) (hs : cursor_in_view l es d) :
    cursor_in_view l es (page_down l d es) := by
  obtain ⟨g, hg⟩ := entries_is_file_guard es hlast
  obtain ⟨hc0, hc1, hpos⟩ := hs
  obtain ⟨index, cursor, pats, dvs⟩ := d
  simp only at hmod hc0 hc1 hpos
  have hge := index_zero_or_page index l hL hmod
  clear hmod hlast
  simp only [page_down, entries_get_nb_entries, entries_get_data_isNone_eq, hg,
    cursor_in_view, Bool.and_eq_true, decide_eq_true_eq]
  clear hg
  split_ifs
  all_goals
    try dsimp only at *
    try simp only [u32, i32] at *
    omega

theorem page_up_in_view (l : Nat) (es : List entry) (d : display)
    (hN : es.length < 4294967296) (hN2 : 2 ≤ es.length)
    (hL : 3 ≤ l) (hL2 : l < 2147483648)
    (hlast : entries_is_file es (es.length - 1) = false)
    (hmod : (d.index : Int) % ((l : Int) - 1) = 0) (hs : cursor_in_view l es d) :
    cursor_in_view l es (page_up l d es) := by
  obtain ⟨g, hg⟩ := entries_is_file_guard es hlast
  obtain ⟨hc0, hc1, hpos⟩ := hs
  obtain ⟨index, cursor, pats, dvs⟩ := d
  simp only at hmod hc0 hc1 hpos
  have hge := index_zero_or_page index l hL hmod
  clear hmod hlast
  simp only [page_up, entries_get_nb_entries, entries_get_data_isNone_eq, hg,
    cursor_in_view, Bool.and_eq_true, decide_eq_true_eq]
  clear hg
  split_ifs
  all_goals
    try dsimp only at *
    try simp only [u32, i32] at *
    omega

/-- C10 (amended): for every entry store with `N ≥ 2` entries (`N` a `uint32_t`)
whose last entry is not a file header, every terminal height with
`LINES - 1 ≥ 2`, and every view state with `index` a multiple of `LINES - 1`,
`0 ≤ cursor ≤ LINES - 2` and `index + cursor < N`, each of `key_down`, `key_up`,
`page_down`, `page_up`, `goto_home`, a resize to a height above 1, and `goto_end`
when `N` is not a multiple of `LINES - 1`, yields a state whose cursor is again a
row of the viewport that shows an existing entry: `0 ≤ cursor ≤ LINES - 2`, for
the height after the operation, and `index + cursor < N`. -/
theorem nav_step_in_view (LINES : Int) (es : List entry) (d : display) (op : nav_op)
    (hN : es.length < 4294967296) (hN2 : 2 ≤ es.length)
    (hL : 3 ≤ LINES) (hL2 : LINES < 2147483648)
    (hlast : entries_is_file es (es.length - 1) = false)
    (hmod : (d.index : Int) % (LINES - 1) = 0) (hs : cursor_in_view LINES es d)
    (hop : nav_allowed LINES es op) :
    cursor_in_view (nav_lines LINES op) es (nav_step LINES es d op) := by
  obtain ⟨l, rfl⟩ : ∃ l : Nat, LINES = l := ⟨LINES.toNat, by omega⟩
  have hL' : 3 ≤ l := by omega
  have hL2' : l < 2147483648 := by omega
  cases op with
  | key_down => exact key_down_in_view l es d hN hN2 hL' hL2' hlast hmod hs
  | key_up => exact key_up_in_view l es d hN hN2 hL' hL2' hlast hmod hs
  | page_down => exact page_down_in_view l es d hN hN2 hL' hL2' hlast hmod hs
  | page_up => exact page_up_in_view l es d hN hN2 hL' hL2' hlast hmod hs
  | goto_home =>
    obtain ⟨hc0, hc1, hpos⟩ := hs
    refine ⟨?_, ?_, ?_⟩
    · show (0 : Int) ≤ 1
      omega
    · show (1 : Int) ≤ (l : Int) - 2
      omega
    · show ((0 : Nat) : Int) + 1 < es.length
      omega
  | goto_end =>
    obtain ⟨h1, h2, h3⟩ := goto_end_values l d es hN (by omega) hL2
    have hne : es.length % ((l : Int) - 1).toNat ≠ 0 := hop
    have hr : ((l : Int) - 1).toNat = l - 1 := by omega
    have hlt : es.length % (l - 1) < l - 1 := Nat.mod_lt _ (by omega)
    rw [hr] at hne h2
    refine ⟨?_, ?_, ?_⟩
    · show 0 ≤ (goto_end l d es).cursor
      omega
    · show (goto_end l d es).cursor ≤ (l : Int) - 2
      omega
    · show ((goto_end l d es).index : Int) + (goto_end l d es).cursor < es.length
      omega
  | resize n =>
    obtain ⟨hn1, hn2⟩ : 1 < n ∧ n < 2147483648 := hop
    obtain ⟨hc0, hc1, hpos⟩ := hs
    obtain ⟨_, h2, h3, h4, h5⟩ := key_resize_values n d hn1 hn2
    have hsum := h3 (by omega) (by omega)
    refine ⟨h4, ?_, ?_⟩
    · show (key_resize n d).cursor ≤ n - 2
      omega
    · show ((key_resize n d).index : Int) + (key_resize n d).cursor < es.length
      omega

/-- Witness of C10 (amended): a page down on the store of two files, three rows,
the cursor on the first match line. -/
theorem nav_step_in_view_witness :
    (two_files.length < 4294967296 ∧ 2 ≤ two_files.length ∧ (3 : Int) ≤ 3 ∧
      (3 : Int) < 2147483648 ∧ entries_is_file two_files (two_files.length - 1) = false ∧
      (((⟨0, 1, [], 3⟩ : display).index : Int) % (3 - 1) = 0) ∧
      cursor_in_view 3 two_files ⟨0, 1, [], 3⟩ ∧ nav_allowed 3 two_files nav_op.page_down) ∧
    cursor_in_view (nav_lines 3 nav_op.page_down) two_files
      (nav_step 3 two_files ⟨0, 1, [], 3⟩ nav_op.page_down) :=
  ⟨⟨by decide, by decide, by decide, by decide, by decide, by decide, by decide, by decide⟩,
    nav_step_in_view 3 two_files ⟨0, 1, [], 3⟩ nav_op.page_down (by decide) (by decide)
      (by decide) (by decide) (by decide) (by decide) (by decide) (by decide)⟩

/-- C10 as stated fails.  On a store of two entries and three rows, `goto_end`
from `index = 0`, `cursor = 1` sets `index = 2` and `cursor = -1`.  On the store
header, line, header and three rows, `page_down` from the same state moves to
`index = 2`, skips the header and sets `cursor = 1`: `index + cursor = 3` is not
below the number of entries. -/
theorem nav_step_counterexample :
    (cursor_in_view 3 [⟨0, [120], false⟩, ⟨1, [97], false⟩] ⟨0, 1, [], 3⟩ ∧
      nav_step 3 [⟨0, [120], false⟩, ⟨1, [97], false⟩] ⟨0, 1, [], 3⟩ nav_op.goto_end
        = ⟨2, -1, [], 3⟩ ∧
      ¬ cursor_in_view 3 [⟨0, [120], false⟩, ⟨1, [97], false⟩]
        (nav_step 3 [⟨0, [120], false⟩, ⟨1, [97], false⟩] ⟨0, 1, [], 3⟩ nav_op.goto_end)) ∧
    (cursor_in_view 3 [⟨0, [120], false⟩, ⟨1, [97], false⟩, ⟨0, [121], false⟩] ⟨0, 1, [], 3⟩ ∧
      nav_step 3 [⟨0, [120], false⟩, ⟨1, [97], false⟩, ⟨0, [121], false⟩] ⟨0, 1, [], 3⟩
        nav_op.page_down = ⟨2, 1, [], 3⟩ ∧
      ¬ cursor_in_view 3 [⟨0, [120], false⟩, ⟨1, [97], false⟩, ⟨0, [121], false⟩]
        (nav_step 3 [⟨0, [120], false⟩, ⟨1, [97], false⟩, ⟨0, [121], false⟩] ⟨0, 1, [], 3⟩
          nav_op.page_down)) := by
  refine ⟨⟨by decide, by decide, by decide⟩, ⟨by decide, by decide, by decide⟩⟩

/-! ## The claim on the alignment of the active view -/

theorem key_resize_aligned (LINES : Int) (d : display)
    (h1 : 1 < LINES) (h2 : LINES < 2147483648) :
    ((key_resize LINES d).index : Int) % (LINES - 1) = 0 := by
  obtain ⟨index, cursor, pats, dvs⟩ := d
  obtain ⟨l, rfl⟩ : ∃ l : Nat, LINES = l := ⟨LINES.toNat, by omega⟩
  have hm : u32 ((l : Int) - 1) = l - 1 := by unfold u32; omega
  have hP : u32 ((index : Int) + cursor) < 4294967296 := by unfold u32; omega
  have hlt : u32 ((index : Int) + cursor) % (l - 1) < l - 1 := Nat.mod_lt _ (by omega)
  have hdm : (l - 1) * (u32 ((index : Int) + cursor) / (l - 1))
      + u32 ((index : Int) + cursor) % (l - 1) = u32 ((index : Int) + cursor) :=
    Nat.div_add_mod _ _
  simp only [key_resize, hm]
  generalize u32 ((index : Int) + cursor) % (l - 1) = cur at hlt hdm
  generalize u32 ((index : Int) + cursor) / (l - 1) = q at hdm
  have hcur : i32 (cur : Int) = cur := i32_of_range _ (by omega) (by omega)
  rw [hcur]
  have hidx : u32 ((u32 ((index : Int) + cursor) : Int) - (cur : Int)) = (l - 1) * q := by
    apply u32_eq_nat
    · omega
    · omega
  rw [hidx]
  have hr : ((l : Int) - 1) = ((l - 1 : Nat) : Int) := by omega
  rw [hr, Nat.cast_mul]
  exact Int.mul_emod_right _ _

/-- C11 at its failing input: three rows, a store of one file with three match
lines, and the keys page down, `/` with `a` and enter typed into the prompt
(a child view is pushed), a resize to eleven rows, and `q` (back to the parent
view).  The parent view comes back with the `index = 2` it had for three rows,
which is not a multiple of `LINES - 1 = 10`; a page up then subtracts 10 from it
in `uint32_t` and leaves `index = 4294967288`. -/
theorem display_loop_pop_misaligned :
    (display_loop loop_start
        [loop_key.KEY_NPAGE,
          loop_key.refine false [97, 10] one_file,
          loop_key.KEY_RESIZE 11, loop_key.QUIT]
      = ⟨11, true, true, [(⟨2, 0, [97], 3⟩, one_file)]⟩) ∧
    ¬ index_aligned (display_loop loop_start
        [loop_key.KEY_NPAGE,
          loop_key.refine false [97, 10] one_file,
          loop_key.KEY_RESIZE 11, loop_key.QUIT]) ∧
    (display_loop loop_start
        [loop_key.KEY_NPAGE,
          loop_key.refine false [97, 10] one_file,
          loop_key.KEY_RESIZE 11, loop_key.QUIT, loop_key.KEY_PPAGE]
      = ⟨11, true, true, [(⟨4294967288, 9, [97], 3⟩, one_file)]⟩) := by
  refine ⟨by decide, by decide, by decide⟩

/-! ## The claim on the writes into the pattern buffer -/

theorem subsearch_loop_writes (keys : List Int) :
    ∀ (j : Nat) (search writes : List Nat) (r : prompt_result),
      j ≤ 4096 → (∀ w ∈ writes, w < 4096) → subsearch_loop keys j search writes = some r →
      ∀ w ∈ r.writes, w < 4096 ∨ (w = 4096 ∧ r.j = 4096) := by
  induction keys with
  | nil => intro j search writes r _ _ h; simp [subsearch_loop] at h
  | cons car keys ih =>
    intro j search writes r hj hw h
    rw [subsearch_loop] at h
    by_cases hc : car ≠ 10 ∧ j < 4096
    · rw [if_pos hc] at h
      have hw' : ∀ i, i < 4096 → ∀ w ∈ writes ++ [i], w < 4096 := by
        intro i hi w hmem
        rcases List.mem_append.mp hmem with h1 | h1
        · exact hw w h1
        · rw [List.mem_singleton] at h1
          omega
      split_ifs at h with h1 h2 h3
      · exact ih _ _ _ r (by omega) (hw' (j - 1) (by omega)) h
      · exact ih _ _ _ r hj hw h
      · cases h
        exact fun w hmem => Or.inl (hw w hmem)
      · exact ih _ _ _ r (by omega) (hw' j hc.2) h
    · rw [if_neg hc] at h
      dsimp only at h
      have hlast : ∀ w ∈ writes ++ [j], w < 4096 ∨ (w = 4096 ∧ j = 4096) := by
        intro w hmem
        rcases List.mem_append.mp hmem with h1 | h1
        · exact Or.inl (hw w h1)
        · rw [List.mem_singleton] at h1
          omega
      split_ifs at h with h1
      · cases h
        exact hlast
      · cases h
        exact hlast

/-- C12 at its failing input: 4096 letters `a` followed by enter.  The letters
are written at the indices 0 to 4095 of the buffer of 4096 bytes, and the
terminating zero is then written at index 4096, one past its end. -/
theorem subsearch_window_writes_past_end :
    subsearch_window false (List.replicate 4096 97 ++ [10])
      = some ⟨10, 4096, List.range' 0 4096 ++ [4096], some (List.replicate 4096 97)⟩ ∧
    4096 ∈ List.range' 0 4096 ++ [4096] :=
  ⟨subsearch_window_full 4096 rfl 10, List.mem_append_right _ (List.mem_singleton.mpr rfl)⟩

end Ngp2
